import Mathlib

/-!
# youtube-snipper: `server.js`

A shallow embedding of the download server of `src/yttimestamp/server.js`:
the timestamp arithmetic (`timeToSeconds`, `calculateDuration`), the two
progress handlers, the `POST /api/download` pipeline as an event-driven step
function, and the `GET /downloads/:filename` gateway.

Conventions of the embedding.

* JavaScript numbers are IEEE-754 doubles.  A number is held as the exact
  rational it denotes (or NaN, or one of the infinities), and every arithmetic
  operation rounds its exact result to the nearest double, ties to even.  The
  two zeros are not told apart.  `parseInt` and `parseFloat` round the exact
  value of the digits they read.
* Strings are sequences of characters; every character the code inspects lies
  in the Basic Multilingual Plane.  The rendering of a number inside a string
  (`toString`, `toFixed`) is kept as a piece holding the number.
* The two regular expressions are written out as matchers.
* The fields of the request body are strings or absent.
* The pipeline of one job is a state and a step function over the events Node
  can deliver to it.  A promise settled inside a handler runs the continuation
  of the `await` before the next event, so one step covers the handler and that
  continuation.  The state holds the slot of `activeDownloads` for the job's
  download id, the files on disk, and a log of what the handler did.
* Paths follow the POSIX flavour of `path.join`.
-/

namespace YtSnipper

/-! ## Numbers -/

/-- A JavaScript Number: NaN, an infinity, or a finite double held as the
rational it denotes. -/
inductive JSNum where
  | nan
  | fin (q : ℚ)
  | posInf
  | negInf
deriving DecidableEq, Repr

/-- Binary logarithm of a natural number, rounded down, by repeated halving;
`fuel` bounds the number of halvings. -/
def log2Fuel : Nat → Nat → Nat
  | 0, _ => 0
  | fuel + 1, n => if n < 2 then 0 else log2Fuel fuel (n / 2) + 1

/-- The exponent `k` with `2 ^ k ≤ |q| < 2 ^ (k + 1)`, for `q ≠ 0`. -/
def floorLog2 (q : ℚ) : ℤ :=
  let k : ℤ := (log2Fuel q.num.natAbs q.num.natAbs : ℤ) - (log2Fuel q.den q.den : ℤ)
  if (2 : ℚ) ^ k ≤ |q| then k else k - 1

/-- Nearest integer, a tie going to the even neighbour. -/
def roundHalfEven (x : ℚ) : ℤ :=
  let f := ⌊x⌋
  let r := x - f
  if r < 1 / 2 then f
  else if 1 / 2 < r then f + 1
  else if f % 2 = 0 then f else f + 1

/-- The double nearest to a rational (roundTiesToEven): 53 significant bits,
least exponent `-1074`, and an infinity from `2 ^ 1024` on. -/
def roundDouble (q : ℚ) : JSNum :=
  if q = 0 then .fin 0
  else
    let e : ℤ := max (floorLog2 q - 52) (-1074)
    let v : ℚ := (roundHalfEven (|q| / (2 : ℚ) ^ e) : ℚ) * (2 : ℚ) ^ e
    if (2 : ℚ) ^ (1024 : ℤ) ≤ v then (if 0 < q then .posInf else .negInf)
    else .fin (if 0 < q then v else -v)

namespace JSNum

/-- The Number of a natural-number literal of the source. -/
def ofNat (n : Nat) : JSNum := roundDouble n

/-- Unary minus. -/
def neg : JSNum → JSNum
  | nan => nan
  | fin q => fin (-q)
  | posInf => negInf
  | negInf => posInf

/-- The `+` of two Numbers. -/
def add : JSNum → JSNum → JSNum
  | nan, _ => nan
  | _, nan => nan
  | posInf, negInf => nan
  | negInf, posInf => nan
  | posInf, _ => posInf
  | negInf, _ => negInf
  | _, posInf => posInf
  | _, negInf => negInf
  | fin a, fin b => roundDouble (a + b)

/-- The `-` of two Numbers. -/
def sub (a b : JSNum) : JSNum := add a (neg b)

/-- The `*` of two Numbers. -/
def mul : JSNum → JSNum → JSNum
  | nan, _ => nan
  | _, nan => nan
  | fin a, fin b => roundDouble (a * b)
  | fin a, posInf => if a = 0 then nan else if 0 < a then posInf else negInf
  | fin a, negInf => if a = 0 then nan else if 0 < a then negInf else posInf
  | posInf, fin b => if b = 0 then nan else if 0 < b then posInf else negInf
  | negInf, fin b => if b = 0 then nan else if 0 < b then negInf else posInf
  | posInf, posInf => posInf
  | posInf, negInf => negInf
  | negInf, posInf => negInf
  | negInf, negInf => posInf

/-- The `/` of two Numbers; a zero divisor counts as `+0`. -/
def div : JSNum → JSNum → JSNum
  | nan, _ => nan
  | _, nan => nan
  | fin a, fin b =>
    if b = 0 then (if a = 0 then nan else if 0 < a then posInf else negInf)
    else roundDouble (a / b)
  | fin _, posInf => fin 0
  | fin _, negInf => fin 0
  | posInf, fin b => if 0 ≤ b then posInf else negInf
  | negInf, fin b => if 0 ≤ b then negInf else posInf
  | posInf, _ => nan
  | negInf, _ => nan

/-- The comparison `a <= b` of JavaScript: false as soon as one side is NaN. -/
def le : JSNum → JSNum → Bool
  | nan, _ => false
  | _, nan => false
  | negInf, _ => true
  | _, posInf => true
  | fin a, fin b => decide (a ≤ b)
  | fin _, negInf => false
  | posInf, _ => false

/-- The comparison `a < b` of JavaScript. -/
def lt : JSNum → JSNum → Bool
  | nan, _ => false
  | _, nan => false
  | negInf, negInf => false
  | negInf, _ => true
  | posInf, _ => false
  | fin a, fin b => decide (a < b)
  | fin _, posInf => true
  | fin _, negInf => false

/-- `Math.min(a, b)`: NaN when an argument is NaN, else the smaller one. -/
def min (a b : JSNum) : JSNum :=
  match a, b with
  | nan, _ => nan
  | _, nan => nan
  | a, b => if le a b then a else b

end JSNum

/-! ## Characters and strings -/

/-- White space and line terminators of ECMAScript (`\s`, and what `parseInt`
and `parseFloat` skip). -/
def isWhiteSpace (c : Char) : Bool :=
  c.toNat ∈ [0x09, 0x0A, 0x0B, 0x0C, 0x0D, 0x20, 0xA0, 0x1680, 0x2028, 0x2029,
    0x202F, 0x205F, 0x3000, 0xFEFF] || (0x2000 ≤ c.toNat && c.toNat ≤ 0x200A)

/-- The class `\d`, the ASCII digits. -/
def isDigit (c : Char) : Bool := 48 ≤ c.toNat && c.toNat ≤ 57

/-- Value of a character as a digit in the given radix (10 or 16). -/
def digitValue (radix : Nat) (c : Char) : Option Nat :=
  if isDigit c then some (c.toNat - 48)
  else if radix = 16 && 97 ≤ c.toNat && c.toNat ≤ 102 then some (c.toNat - 87)
  else if radix = 16 && 65 ≤ c.toNat && c.toNat ≤ 70 then some (c.toNat - 55)
  else none

/-- `s.split(sep)` for a one-character separator, on character lists. -/
def splitOnChar (sep : Char) : List Char → List (List Char)
  | [] => [[]]
  | c :: cs =>
    if c = sep then [] :: splitOnChar sep cs
    else
      match splitOnChar sep cs with
      | [] => [[c]]
      | p :: ps => (c :: p) :: ps

/-- The sign step of `parseInt`: whether the text starts with `-`, and the
text after a leading `+` or `-`. -/
def stripSign : List Char → Bool × List Char
  | '-' :: r => (true, r)
  | '+' :: r => (false, r)
  | r => (false, r)

/-- The radix step of `parseInt` without a radix argument: 16 after a leading
`0x` or `0X` (which is dropped), else 10. -/
def stripRadix : List Char → Nat × List Char
  | '0' :: 'x' :: r => (16, r)
  | '0' :: 'X' :: r => (16, r)
  | r => (10, r)

/-- The integer written by a run of digits in the given radix. -/
def digitsValue (radix : Nat) (z : List Char) : Nat :=
  z.foldl (fun acc c => acc * radix + (digitValue radix c).getD 0) 0

/-- `parseInt(s)` without a radix argument, on a character list: skip leading
white space, read a sign, take radix 16 after `0x` / `0X` and 10 otherwise, read
the longest run of digits, and round the integer read to a double; NaN when
there is no digit. -/
def parseIntChars (s : List Char) : JSNum :=
  let signed := stripSign (s.dropWhile isWhiteSpace)
  let based := stripRadix signed.2
  let z := based.2.takeWhile (fun c => (digitValue based.1 c).isSome)
  if z = [] then .nan
  else
    let mathInt : Nat := digitsValue based.1 z
    roundDouble (if signed.1 then -(mathInt : ℚ) else (mathInt : ℚ))

/-- `parseInt(s)` -/
def parseInt (s : String) : JSNum := parseIntChars s.data

/-! ## Time Range Resolver -/

/-- `timeToSeconds(timeStr)` (server.js 378-383). -/
def timeToSeconds (timeStr : String) : JSNum :=
  let parts := (splitOnChar ':' timeStr.data).map parseIntChars
  match parts with
  | [p0, p1, p2] => ((p0.mul (.ofNat 3600)).add (p1.mul (.ofNat 60))).add p2
  | [p0, p1] => (p0.mul (.ofNat 60)).add p1
  | _ => parseInt timeStr

/-- `calculateDuration(start, end)` (server.js 370-376). -/
def calculateDuration (start stop : String) : JSNum :=
  let startSec := timeToSeconds start
  let endSec := timeToSeconds stop
  let duration := endSec.sub startSec
  duration

/-! ## Text with embedded numbers -/

/-- A piece of a JavaScript string: literal characters, or the rendering of a
Number by `toString()` or by `toFixed(digits)`, kept as the Number rendered. -/
inductive Piece where
  | lit (s : String)
  | num (x : JSNum)
  | fixed (digits : Nat) (x : JSNum)
deriving DecidableEq, Repr

/-- A JavaScript string built by concatenation and template literals. -/
abbrev Text := List Piece

/-! ## Pattern matchers and `parseFloat` -/

/-- Match a literal at the head of the text; the text after it. -/
def dropLiteral : List Char → List Char → Option (List Char)
  | [], s => some s
  | _ :: _, [] => none
  | l :: ls, c :: cs => if l = c then dropLiteral ls cs else none

/-- Leftmost match: try the matcher at every start position in turn. -/
def searchFirst {α : Type} (m : List Char → Option α) : List Char → Option α
  | [] => m []
  | c :: cs =>
    match m (c :: cs) with
    | some r => some r
    | none => searchFirst m cs

/-- The pattern `\[download\]\s+(\d+\.?\d*)%` anchored at the head of the text;
the capture group on a match.  Each quantifier is followed by a character
outside its class, so the greedy reading is the only one. -/
def fetchMatchHere (s : List Char) : Option (List Char) :=
  match dropLiteral "[download]".data s with
  | none => none
  | some r1 =>
    if r1.takeWhile isWhiteSpace = [] then none
    else
      let r2 := r1.dropWhile isWhiteSpace
      let d1 := r2.takeWhile isDigit
      if d1 = [] then none
      else
        let dotted : List Char × List Char :=
          match r2.dropWhile isDigit with
          | '.' :: r => (['.'], r)
          | r => ([], r)
        let d2 := dotted.2.takeWhile isDigit
        match dotted.2.dropWhile isDigit with
        | '%' :: _ => some (d1 ++ dotted.1 ++ d2)
        | _ => none

/-- The pattern `time=(\d+):(\d+):(\d+\.\d+)` anchored at the head of the text;
the three capture groups on a match. -/
def trimMatchHere (s : List Char) : Option (List Char × List Char × List Char) :=
  match dropLiteral "time=".data s with
  | none => none
  | some r1 =>
    let h := r1.takeWhile isDigit
    if h = [] then none
    else
      match r1.dropWhile isDigit with
      | ':' :: r2 =>
        let m := r2.takeWhile isDigit
        if m = [] then none
        else
          match r2.dropWhile isDigit with
          | ':' :: r3 =>
            let s1 := r3.takeWhile isDigit
            if s1 = [] then none
            else
              match r3.dropWhile isDigit with
              | '.' :: r4 =>
                let s2 := r4.takeWhile isDigit
                if s2 = [] then none else some (h, m, s1 ++ '.' :: s2)
              | _ => none
          | _ => none
      | _ => none

/-- The exponent part of a decimal literal, `e` or `E`, an optional sign, and
one or more digits; 0 when there is none. -/
def exponentPart : List Char → ℤ
  | c :: r =>
    if c = 'e' ∨ c = 'E' then
      let signed := stripSign r
      let ds := signed.2.takeWhile isDigit
      if ds = [] then 0
      else if signed.1 then -(digitsValue 10 ds : ℤ) else (digitsValue 10 ds : ℤ)
    else 0
  | [] => 0

/-- `parseFloat(s)` on a character list: skip leading white space, read a sign,
then `Infinity` or the longest decimal literal (digits, a fraction, an
exponent), and round its value to a double; NaN when there is no digit. -/
def parseFloatChars (s : List Char) : JSNum :=
  let signed := stripSign (s.dropWhile isWhiteSpace)
  match dropLiteral "Infinity".data signed.2 with
  | some _ => if signed.1 then .negInf else .posInf
  | none =>
    let ip := signed.2.takeWhile isDigit
    let fraction : List Char × List Char :=
      match signed.2.dropWhile isDigit with
      | '.' :: r => (r.takeWhile isDigit, r.dropWhile isDigit)
      | r => ([], r)
    if ip = [] ∧ fraction.1 = [] then .nan
    else
      let v : ℚ := (digitsValue 10 (ip ++ fraction.1) : ℚ) / (10 : ℚ) ^ fraction.1.length
        * (10 : ℚ) ^ exponentPart fraction.2
      roundDouble (if signed.1 then -v else v)

/-! ## Progress records and the two progress handlers -/

/-- A progress record, the value `activeDownloads` holds for a download id. -/
structure ProgressRecord where
  percent : JSNum
  status : String
  stage : Option String
  message : Text
deriving DecidableEq, Repr

/-- The stdout `data` handler of `downloadWithQuality` (server.js 241-255): the
record it writes to the progress store for a chunk of output, if any. -/
def fetchOnData (text : String) : Option ProgressRecord :=
  match searchFirst fetchMatchHere text.data with
  | some capture =>
    let percent := JSNum.min (parseFloatChars capture) (.ofNat 80)
    some { percent := percent, status := "downloading", stage := some "download",
           message := [.lit "Downloading... ", .fixed 1 percent, .lit "% - Please wait"] }
  | none => none

/-- The stderr `data` handler of `applyTimestamps` (server.js 324-347): the
record it writes to the progress store for a chunk of output, if any. -/
def trimOnData (text : String) : Option ProgressRecord :=
  match searchFirst trimMatchHere text.data with
  | some (h, m, s) =>
    let hours := parseIntChars h
    let minutes := parseIntChars m
    let seconds := parseFloatChars s
    let totalSeconds := ((hours.mul (.ofNat 3600)).add (minutes.mul (.ofNat 60))).add seconds
    let lastProgress :=
      JSNum.min ((JSNum.ofNat 80).add ((totalSeconds.div (.ofNat 30)).mul (.ofNat 20))) (.ofNat 99)
    some { percent := lastProgress, status := "processing", stage := some "timestamps",
           message := [.lit "Processing timestamps... ", .fixed 1 lastProgress,
             .lit "% - Please wait"] }
  | none => none

/-! ## Request values, paths and files -/

/-- A value the download handler tests for truthiness: `undefined` (a field
absent from the request body), a string, or a boolean. -/
inductive JSVal where
  | undefined
  | str (s : String)
  | bool (b : Bool)
deriving DecidableEq, Repr

namespace JSVal

/-- Truthiness: `undefined`, the empty string and `false` are falsy. -/
def truthy : JSVal → Bool
  | undefined => false
  | str s => decide (s ≠ "")
  | bool b => b

/-- The operator `a || b`. -/
def or (a b : JSVal) : JSVal := if a.truthy then a else b

/-- The operator `a && b`. -/
def and (a b : JSVal) : JSVal := if a.truthy then b else a

/-- A field of the request body: absent, or a string. -/
def ofOption : Option String → JSVal
  | none => undefined
  | some s => str s

/-- The string a value contributes to a template literal or argument. -/
def text : JSVal → String
  | undefined => "undefined"
  | str s => s
  | bool b => if b then "true" else "false"

end JSVal

/-- The body of `POST /api/download`, with string fields. -/
structure DownloadRequest where
  url : Option String
  startTime : Option String
  endTime : Option String
  format : Option String
  quality : Option String
deriving DecidableEq, Repr

/-- The segment stack of `path.normalize` (POSIX): empty and `.` segments are
dropped, `..` pops the last segment unless there is none or it is `..`, where
it is kept only if the path is relative.  The stack is held last segment
first. -/
def normalizeStep (allowAboveRoot : Bool) (acc : List (List Char)) (seg : List Char) :
    List (List Char) :=
  if seg = [] ∨ seg = ['.'] then acc
  else if seg = ['.', '.'] then
    match acc with
    | [] => if allowAboveRoot then [seg] else []
    | top :: rest => if top = ['.', '.'] then (if allowAboveRoot then seg :: acc else acc) else rest
  else seg :: acc

/-- The normalised segments of a path, first segment first. -/
def normalizeSegments (allowAboveRoot : Bool) (segs : List (List Char)) : List (List Char) :=
  (segs.foldl (normalizeStep allowAboveRoot) []).reverse

/-- Segments joined by `/`. -/
def joinSegments : List (List Char) → List Char
  | [] => []
  | [seg] => seg
  | seg :: rest => seg ++ '/' :: joinSegments rest

/-- `path.normalize(p)` (POSIX) on a character list. -/
def normalizeChars (p : List Char) : List Char :=
  if p = [] then ['.']
  else
    let isAbsolute := p.head? = some '/'
    let trailing := p.getLast? = some '/'
    let body := joinSegments (normalizeSegments (!isAbsolute) (splitOnChar '/' p))
    if body = [] then
      if isAbsolute then ['/'] else if trailing then ['.', '/'] else ['.']
    else
      let body2 := if trailing then body ++ ['/'] else body
      if isAbsolute then '/' :: body2 else body2

/-- `path.join(...parts)` (POSIX): the non-empty parts joined by `/`, then
normalised. -/
def pathJoin (parts : List String) : String :=
  String.mk (normalizeChars (joinSegments ((parts.filter (fun p => p ≠ "")).map String.data)))

/-- Whether the text starts with the given characters. -/
def startsWith : List Char → List Char → Bool
  | [], _ => true
  | _ :: _, [] => false
  | p :: ps, c :: cs => p = c && startsWith ps cs

/-- `s.replace(pattern, replacement)` for a string pattern: the first
occurrence only. -/
def replaceFirst (pattern replacement : List Char) : List Char → List Char
  | [] => if pattern = [] then replacement else []
  | c :: cs =>
    if startsWith pattern (c :: cs) then replacement ++ (c :: cs).drop pattern.length
    else c :: replaceFirst pattern replacement cs

/-- `s.endsWith(suffix)` -/
def endsWith (s suffix : String) : Bool := startsWith suffix.data.reverse s.data.reverse

/-- The files on disk: path and size in bytes.  Paths are compared as written. -/
abbrev Files := List (String × Nat)

/-- `fs.existsSync(p)` -/
def existsSync (files : Files) (p : String) : Bool := files.any (fun f => f.1 = p)

/-- `fs.statSync(p).size`, or nothing when `statSync` throws for a missing file. -/
def statSize (files : Files) (p : String) : Option Nat :=
  (files.find? (fun f => f.1 = p)).map (fun f => f.2)

/-- The disk after `fs.unlinkSync(p)`. -/
def removeFile (files : Files) (p : String) : Files := files.filter (fun f => f.1 ≠ p)

/-- The disk after a file of the given size is written at `p`. -/
def writeFile (files : Files) (p : String) (size : Nat) : Files := (p, size) :: removeFile files p

/-- The disk after `fs.renameSync(src, dst)`, or nothing when it throws for a
missing source. -/
def renameSync (files : Files) (src dst : String) : Option Files :=
  match statSize files src with
  | none => none
  | some size => some (writeFile (removeFile files src) dst size)

/-- The constant `ffmpegPath` (server.js 20). -/
def ffmpegPath : String := "./ffmpeg"

/-! ## The download pipeline -/

/-- What the handler reads from its surroundings when a request arrives. -/
structure Ctx where
  /-- `__dirname` -/
  dirname : String
  /-- `Date.now()` for `downloadId` (server.js 61); milliseconds since the epoch,
  far below `2 ^ 53`, so that its decimal rendering is exact -/
  downloadIdTime : Nat
  /-- `Date.now()` for `videoId` (server.js 78) -/
  videoIdTime : Nat
deriving DecidableEq, Repr

/-- The constants of one `POST /api/download` call (server.js 60-82). -/
structure Job where
  url : JSVal
  startTime : JSVal
  endTime : JSVal
  format : String
  quality : String
  downloadId : String
  useTimestamps : JSVal
  filename : String
  finalPath : String
  tempFile : String
deriving DecidableEq, Repr

/-- The job of a request (server.js 60-82). -/
def mkJob (ctx : Ctx) (req : DownloadRequest) (files : Files) : Job :=
  let startTime := JSVal.ofOption req.startTime
  let endTime := JSVal.ofOption req.endTime
  let format := req.format.getD "mp4"
  let quality := req.quality.getD "720"
  let videoId := toString ctx.videoIdTime
  let useTimestamps := (startTime.or endTime).and (.bool (existsSync files ffmpegPath))
  let filename :=
    if useTimestamps.truthy then "clip_" ++ videoId ++ "." ++ format
    else "video_" ++ videoId ++ "." ++ format
  { url := JSVal.ofOption req.url, startTime := startTime, endTime := endTime,
    format := format, quality := quality,
    downloadId := toString ctx.downloadIdTime,
    useTimestamps := useTimestamps, filename := filename,
    finalPath := pathJoin [ctx.dirname, "downloads", filename],
    tempFile := pathJoin [ctx.dirname, "downloads", "temp_" ++ videoId ++ "." ++ format] }

/-- The body of a JSON response of `POST /api/download`. -/
inductive ResponseBody where
  | error (error : Text) (downloadId : Option String)
  | success (message downloadUrl filename : String) (fileSize : Text)
      (quality timestamp : String) (clipped : JSVal) (format downloadId : String)
deriving DecidableEq, Repr

/-- What the handler does to the world, in order. -/
inductive Action where
  | setProgress (r : ProgressRecord)
  | spawn (command : String) (args : List Text)
  | rename (src dst : String)
  | unlink (path : String)
  | scheduleEviction
  | evict
  | respond (status : Nat) (body : ResponseBody)
deriving DecidableEq, Repr

/-- Where the handler is suspended: at `await downloadWithQuality(...)`, at
`await applyTimestamps(...)`, or finished.  The promise of a stage is pending
exactly while the handler awaits it. -/
inductive Phase where
  | awaitFetch
  | awaitTrim
  | done
deriving DecidableEq, Repr

/-- The state of one job. -/
structure State where
  files : Files
  /-- `activeDownloads.get(downloadId)` -/
  store : Option ProgressRecord
  log : List Action
  phase : Phase
  fetchSpawned : Bool
  fetchClosed : Bool
  fetchTimerFired : Bool
  trimSpawned : Bool
  trimClosed : Bool
  trimTimerFired : Bool
  evictionPending : Bool
deriving DecidableEq, Repr

namespace State

/-- Append an action to the log. -/
def emit (s : State) (a : Action) : State := { s with log := s.log ++ [a] }

/-- `activeDownloads.set(downloadId, r)` -/
def setProgress (s : State) (r : ProgressRecord) : State :=
  { s with store := some r, log := s.log ++ [.setProgress r] }

/-- The records written to the progress store, in order. -/
def writes (s : State) : List ProgressRecord :=
  s.log.filterMap (fun a => match a with | .setProgress r => some r | _ => none)

/-- The responses sent, in order. -/
def responses (s : State) : List (Nat × ResponseBody) :=
  s.log.filterMap (fun a => match a with | .respond c b => some (c, b) | _ => none)

/-- The commands launched, in order. -/
def spawned (s : State) : List String :=
  s.log.filterMap (fun a => match a with | .spawn c _ => some c | _ => none)

end State

/-- The record a job starts with (server.js 85-90 and 183-188). -/
def initialRecord : ProgressRecord :=
  { percent := .ofNat 5, status := "downloading", stage := some "download",
    message := [.lit "Downloading... Please wait for a few seconds"] }

/-- The record written when the trim stage starts (server.js 101-106). -/
def processingRecord : ProgressRecord :=
  { percent := .ofNat 80, status := "processing", stage := some "timestamps",
    message := [.lit "Applying timestamps... Please wait"] }

/-- The record written when the pipeline succeeds (server.js 120-125). -/
def completedRecord : ProgressRecord :=
  { percent := .ofNat 100, status := "completed", stage := some "complete",
    message := [.lit "Download ready!"] }

/-- The record written by the `catch` block (server.js 154-159). -/
def errorRecord (message : Text) : ProgressRecord :=
  { percent := .ofNat 0, status := "error", stage := some "error", message := message }

/-- The record `GET /api/progress/:id` answers with (server.js 42-45). -/
def getProgress (store : Option ProgressRecord) : ProgressRecord :=
  store.getD { percent := .ofNat 0, status := "starting", stage := none,
               message := [.lit "Starting download..."] }

/-- The argument vector of the fetch tool (server.js 190-233). -/
def fetchArgs (j : Job) : List Text :=
  let output : List Text :=
    [[.lit "-o"], [.lit (String.mk (replaceFirst ".mp4".data ".%(ext)s".data j.tempFile.data))]]
  let selector : List Text :=
    if j.format = "mp3" then
      [[.lit "--extract-audio"], [.lit "--audio-format"], [.lit "mp3"], [.lit "--audio-quality"],
        [.lit "0"]]
    else
      let qualityFilter :=
        if j.quality = "360" then "best[height<=360]"
        else if j.quality = "480" then "best[height<=480]"
        else if j.quality = "720" then "best[height<=720]"
        else if j.quality = "1080" then "best[height<=1080]"
        else if j.quality = "best" then "best"
        else "best[height<=720]"
      [[.lit "-f"], [.lit qualityFilter]]
  output ++ selector ++
    [[.lit "--no-overwrites"], [.lit "--extractor-args"], [.lit "youtube:player_client=web,android"],
      [.lit "--throttled-rate"], [.lit "100K"], [.lit "--socket-timeout"], [.lit "30"],
      [.lit j.url.text]]

/-- The argument vector of the trim tool (server.js 294-316). -/
def trimArgs (j : Job) : List Text :=
  let input : List Text := [[.lit "-i"], [.lit j.tempFile]]
  let seek : List Text :=
    if j.startTime.truthy then [[.lit "-ss"], [.lit j.startTime.text]] else []
  let span : List Text :=
    if (j.endTime.and j.startTime).truthy then
      [[.lit "-t"], [.num (calculateDuration j.startTime.text j.endTime.text)]]
    else []
  let codec : List Text :=
    if j.format = "mp3" then [[.lit "-acodec"], [.lit "libmp3lame"], [.lit "-b:a"], [.lit "128k"]]
    else [[.lit "-c"], [.lit "copy"]]
  input ++ seek ++ span ++ codec ++ [[.lit "-y"], [.lit j.finalPath]]

/-- The `catch` block of the handler (server.js 150-174): write the error
record, schedule its eviction, remove the intermediate file if it is there, and
answer 500. -/
def onFailure (j : Job) (s : State) (message : Text) : State :=
  let s1 := s.setProgress (errorRecord message)
  let s2 := { s1.emit .scheduleEviction with evictionPending := true }
  let s3 :=
    if j.tempFile ≠ "" ∧ existsSync s2.files j.tempFile = true then
      { s2.emit (.unlink j.tempFile) with files := removeFile s2.files j.tempFile }
    else s2
  { s3.emit (.respond 500 (.error (.lit "Download failed: " :: message) (some j.downloadId)))
      with phase := .done }

/-- The body of the 200 answer (server.js 127-148), from the size of the final
file. -/
def successBody (j : Job) (size : Nat) : ResponseBody :=
  let fileSizeMB : JSNum := (JSNum.ofNat size).div ((JSNum.ofNat 1024).mul (.ofNat 1024))
  .success
    (if j.useTimestamps.truthy then "✅ Timestamp download completed!" else "✅ Video downloaded!")
    ("/downloads/" ++ j.filename)
    j.filename
    [.fixed 2 fileSizeMB, .lit " MB"]
    (if j.format = "mp4" then j.quality ++ "p" else "Audio")
    (if j.useTimestamps.truthy then
      (j.startTime.or (.str "start")).text ++ " to " ++ (j.endTime.or (.str "end")).text
     else "Full video")
    j.useTimestamps
    j.format
    j.downloadId

/-- The end of the `try` block (server.js 119-148): write the completed record,
read the size of the final file, schedule the eviction and answer 200. -/
def finish (j : Job) (s : State) : State :=
  let s1 := s.setProgress completedRecord
  match statSize s1.files j.finalPath with
  | none =>
    onFailure j s1 [.lit ("ENOENT: no such file or directory, stat '" ++ j.finalPath ++ "'")]
  | some size =>
    let s2 := { s1.emit .scheduleEviction with evictionPending := true }
    { s2.emit (.respond 200 (successBody j size)) with phase := .done }

/-- The handler after `await downloadWithQuality(...)` has resolved (server.js
99-117), with the executor of `applyTimestamps` up to the launch of the trim
tool (server.js 289-320). -/
def afterFetch (j : Job) (s : State) : State :=
  if j.useTimestamps.truthy then
    let s1 := s.setProgress processingRecord
    if existsSync s1.files j.tempFile = false then onFailure j s1 [.lit "Input file not found"]
    else { s1.emit (.spawn ffmpegPath (trimArgs j)) with trimSpawned := true, phase := .awaitTrim }
  else
    match renameSync s.files j.tempFile j.finalPath with
    | none =>
      onFailure j s [.lit ("ENOENT: no such file or directory, rename '" ++ j.tempFile ++
        "' -> '" ++ j.finalPath ++ "'")]
    | some files => finish j { s.emit (.rename j.tempFile j.finalPath) with files := files }

/-- The handler from the arrival of the request to its first suspension
(server.js 60-97 and 179-239): answer 400 without a url, else write the initial
record twice, launch the fetch tool and await it. -/
def start (j : Job) (files : Files) : State :=
  let s0 : State :=
    { files := files, store := none, log := [], phase := .done,
      fetchSpawned := false, fetchClosed := false, fetchTimerFired := false,
      trimSpawned := false, trimClosed := false, trimTimerFired := false,
      evictionPending := false }
  if j.url.truthy = false then
    s0.emit (.respond 400 (.error [.lit "YouTube URL required"] none))
  else
    let s1 := (s0.setProgress initialRecord).setProgress initialRecord
    { s1.emit (.spawn "yt-dlp" (fetchArgs j)) with fetchSpawned := true, phase := .awaitFetch }

/-- What can happen to a job after the request: output, exit, launch error and
stage timer of each tool, the eviction timer, and changes of the disk made from
outside the handler (by the tools, for one).  An exit code is absent when the
process was ended by a signal. -/
inductive Event where
  | fetchStdout (text : String)
  | fetchStderr (text : String)
  | fetchClose (code : Option Int)
  | fetchError (message : String)
  | fetchTimeout
  | trimStderr (text : String)
  | trimClose (code : Option Int)
  | trimError (message : String)
  | trimTimeout
  | evictionTimer
  | fileWritten (path : String) (size : Nat)
  | fileRemoved (path : String)
deriving DecidableEq, Repr

/-- The exit code as JavaScript prints it. -/
def codeText : Option Int → String
  | none => "null"
  | some c => toString c

/-- One event handled to completion: the handler registered for it, and, when
it settles the promise the request handler awaits, the rest of the request
handler up to its next suspension. -/
def step (j : Job) (s : State) : Event → State
  | .fetchStdout text =>
    match fetchOnData text with
    | some r => s.setProgress r
    | none => s
  | .fetchStderr _ => s
  | .fetchClose code =>
    let s1 := { s with fetchClosed := true }
    if s1.phase = .awaitFetch then
      if code = some 0 then afterFetch j s1
      else onFailure j s1 [.lit "Video download failed"]
    else s1
  | .fetchError message =>
    if s.phase = .awaitFetch then onFailure j s [.lit ("yt-dlp error: " ++ message)] else s
  | .fetchTimeout =>
    let s1 := { s with fetchTimerFired := true }
    if s1.phase = .awaitFetch then onFailure j s1 [.lit "Download timeout"] else s1
  | .trimStderr text =>
    match trimOnData text with
    | some r => s.setProgress r
    | none => s
  | .trimClose code =>
    let s1 := { s with trimClosed := true }
    if code = some 0 then
      let s2 :=
        if existsSync s1.files j.tempFile = true then
          { s1.emit (.unlink j.tempFile) with files := removeFile s1.files j.tempFile }
        else s1
      if s2.phase = .awaitTrim then finish j s2 else s2
    else if s1.phase = .awaitTrim then
      onFailure j s1 [.lit ("FFmpeg failed with code " ++ codeText code)]
    else s1
  | .trimError message =>
    if s.phase = .awaitTrim then onFailure j s [.lit ("FFmpeg execution error: " ++ message)]
    else s
  | .trimTimeout =>
    let s1 := { s with trimTimerFired := true }
    if s1.phase = .awaitTrim then onFailure j s1 [.lit "FFmpeg timeout"] else s1
  | .evictionTimer =>
    { s.emit .evict with store := none, evictionPending := false }
  | .fileWritten path size => { s with files := writeFile s.files path size }
  | .fileRemoved path => { s with files := removeFile s.files path }

/-- The state after a sequence of events. -/
def run (j : Job) (s : State) (events : List Event) : State := events.foldl (step j) s

/-- Whether the event can occur in the state: a tool emits events only once
launched and, its `close` event being the last, only until it has closed; a
timer fires once; the disk can change at any time. -/
def enabled (s : State) : Event → Bool
  | .fetchStdout _ => s.fetchSpawned && !s.fetchClosed
  | .fetchStderr _ => s.fetchSpawned && !s.fetchClosed
  | .fetchClose _ => s.fetchSpawned && !s.fetchClosed
  | .fetchError _ => s.fetchSpawned && !s.fetchClosed
  | .fetchTimeout => s.fetchSpawned && !s.fetchTimerFired
  | .trimStderr _ => s.trimSpawned && !s.trimClosed
  | .trimClose _ => s.trimSpawned && !s.trimClosed
  | .trimError _ => s.trimSpawned && !s.trimClosed
  | .trimTimeout => s.trimSpawned && !s.trimTimerFired
  | .evictionTimer => s.evictionPending
  | .fileWritten _ _ => true
  | .fileRemoved _ => true

/-- Whether a sequence of events can occur from the state, one after the other. -/
def admissible (j : Job) : State → List Event → Bool
  | _, [] => true
  | s, e :: es => enabled s e && admissible j (step j s e) es

/-- Events that precede the exit of the fetch tool in a run without launch
error or timeout: output of the fetch tool and changes of the disk. -/
def Event.isFetchOutputOrDisk : Event → Bool
  | .fetchStdout _ => true
  | .fetchStderr _ => true
  | .fileWritten _ _ => true
  | .fileRemoved _ => true
  | _ => false

/-! ## The artifact gateway -/

/-- The answer of `GET /downloads/:filename`. -/
inductive GatewayResponse where
  | download (path : String) (contentType : Option String)
  | notFound
deriving DecidableEq, Repr

/-- The handler of `GET /downloads/:filename` (server.js 385-403): the file at
the joined path is sent when it exists, else the answer is 404. -/
def serveDownload (dirname : String) (files : Files) (filename : String) : GatewayResponse :=
  let filepath := pathJoin [dirname, "downloads", filename]
  if existsSync files filepath = true then
    .download filepath
      (if endsWith filename ".mp4" = true then some "video/mp4"
       else if endsWith filename ".mp3" = true then some "audio/mpeg"
       else none)
  else .notFound

/-- Whether a path is the directory itself or lies below it. -/
def insideDir (dir path : String) : Bool :=
  decide (path = dir) || startsWith (dir.data ++ ['/']) path.data

/-! ## Properties of states and records used in the proofs -/

/-- The process flags of the two states agree. -/
def SameProcs (s t : State) : Prop :=
  t.fetchSpawned = s.fetchSpawned ∧ t.fetchClosed = s.fetchClosed ∧
  t.trimSpawned = s.trimSpawned ∧ t.trimClosed = s.trimClosed

/-- A record of the download stage: percent a number in [0, 80]. -/
def IsDownload (r : ProgressRecord) : Prop :=
  r.stage = some "download" ∧ ∃ v : ℚ, r.percent = .fin v ∧ 0 ≤ v ∧ v ≤ 80

/-- A record of the trim stage: percent a number in [80, 99]. -/
def IsTimestamps (r : ProgressRecord) : Prop :=
  r.stage = some "timestamps" ∧ ∃ v : ℚ, r.percent = .fin v ∧ 80 ≤ v ∧ v ≤ 99

/-- The completed record. -/
def IsComplete (r : ProgressRecord) : Prop :=
  r.stage = some "complete" ∧ r.percent = .fin 100

/-- An error record. -/
def IsError (r : ProgressRecord) : Prop :=
  r.status = "error" ∧ r.percent = .fin 0

/-- How a record written to the progress store relates to the one it
replaces: unless it is an error record, its percent is not smaller, or the two
records belong to the same stage. -/
def Replaces (p r : ProgressRecord) : Prop :=
  r.status ≠ "error" → p.percent.le r.percent = true ∨ p.stage = r.stage

/-- The claim of monotonic percent, on the records written in order: unless
it is an error record, each record has a percent not smaller than that of the
record it replaces. -/
def MonotonePercent : List ProgressRecord → Prop
  | p :: r :: rest =>
    (r.status ≠ "error" → p.percent.le r.percent = true) ∧ MonotonePercent (r :: rest)
  | _ => True

/-- No tool process of the job is still running and the handler has finished. -/
def Quiet (s : State) : Prop :=
  s.phase = .done ∧ (s.fetchSpawned = true → s.fetchClosed = true) ∧
    (s.trimSpawned = true → s.trimClosed = true)

/-- The record in the store has a terminal status. -/
def Terminal (r : ProgressRecord) : Prop := r.status = "completed" ∨ r.status = "error"

/-- What holds of every state a job reaches. -/
structure Inv (s : State) : Prop where
  trimAfterFetch : s.trimSpawned = true → s.fetchClosed = true
  fetchPhase : s.phase = .awaitFetch → s.trimSpawned = false
  terminalDone : ∀ r, s.store = some r → Terminal r → s.phase = .done
  completedQuiet : ∀ r, s.store = some r → r.status = "completed" → Quiet s
  lastFetch : s.fetchClosed = false → ∀ p ∈ s.writes.getLast?, IsDownload p ∨ IsError p
  lastTrim : s.trimSpawned = true → s.trimClosed = false →
    ∀ p ∈ s.writes.getLast?, IsTimestamps p ∨ IsError p
  lastAny : ∀ p ∈ s.writes.getLast?, IsDownload p ∨ IsTimestamps p ∨ IsComplete p ∨ IsError p
  chain : List.Chain' Replaces s.writes

/-- The `clipped` field of a response body, when it has one. -/
def ResponseBody.clipped : ResponseBody → Option JSVal
  | .success _ _ _ _ _ _ clipped _ _ => some clipped
  | .error _ _ => none

/-- The handler awaits the fetch tool, which is running, and has answered
nothing and launched nothing else. -/
def Fetching (s : State) : Prop :=
  s.phase = .awaitFetch ∧ s.fetchSpawned = true ∧ s.fetchClosed = false ∧
    s.trimSpawned = false ∧ s.responses = [] ∧ s.spawned = ["yt-dlp"]

/-- The claim of monotonic percent can be checked on a given list. -/
def MonotonePercent.decide : (ws : List ProgressRecord) → Decidable (MonotonePercent ws)
  | [] => isTrue trivial
  | [_] => isTrue trivial
  | p :: r :: rest =>
    have := MonotonePercent.decide (r :: rest)
    inferInstanceAs (Decidable
      ((r.status ≠ "error" → p.percent.le r.percent = true) ∧ MonotonePercent (r :: rest)))

instance (ws : List ProgressRecord) : Decidable (MonotonePercent ws) := MonotonePercent.decide ws

instance (p r : ProgressRecord) : Decidable (Replaces p r) :=
  inferInstanceAs (Decidable (r.status ≠ "error" → p.percent.le r.percent = true ∨ p.stage = r.stage))

/-! ## A concrete request, for examples -/

/-- A server directory and two clock readings. -/
def exampleCtx : Ctx :=
  { dirname := "/app", downloadIdTime := 1700000000000, videoIdTime := 1700000000001 }

/-- A request for a clip whose start time is not a number. -/
def exampleRequest : DownloadRequest :=
  { url := some "https://youtu.be/x", startTime := some "abc", endTime := some "10",
    format := none, quality := none }

/-- A disk with the trim tool installed. -/
def exampleFiles : Files := [("./ffmpeg", 70000000)]

/-- The job of the example request. -/
def exampleJob : Job := mkJob exampleCtx exampleRequest exampleFiles

/-- A Number that is neither NaN nor negative. -/
def JSNum.NonNeg (x : JSNum) : Prop := x = .posInf ∨ ∃ v : ℚ, 0 ≤ v ∧ x = .fin v

/-- A Number that is not NaN and at least the natural number `c`. -/
def JSNum.AtLeast (c : ℕ) (x : JSNum) : Prop := x = .posInf ∨ ∃ v : ℚ, (c : ℚ) ≤ v ∧ x = .fin v

/-- A decimal numeral: one or more ASCII digits. -/
def IsDecimal (ds : List Char) : Prop := ds ≠ [] ∧ ∀ c ∈ ds, isDigit c = true

instance (ds : List Char) : Decidable (IsDecimal ds) :=
  inferInstanceAs (Decidable (ds ≠ [] ∧ ∀ c ∈ ds, isDigit c = true))

/-- The natural number a decimal numeral denotes. -/
def decimalValue (ds : List Char) : Nat :=
  Nat.ofDigits 10 (ds.reverse.map (fun c => c.toNat - 48))

/-- A timestamp in one of the accepted forms `S`, `M:S`, `H:M:S`, given by
the numerals of its components. -/
inductive Stamp where
  | s (sec : List Char)
  | ms (min sec : List Char)
  | hms (hour min sec : List Char)

namespace Stamp

/-- The timestamp as the string handed to `timeToSeconds`. -/
def text : Stamp → String
  | s sec => String.mk sec
  | ms min sec => String.mk (min ++ ':' :: sec)
  | hms hour min sec => String.mk (hour ++ ':' :: (min ++ ':' :: sec))

/-- Every component is a decimal numeral. -/
def Valid : Stamp → Prop
  | s sec => IsDecimal sec
  | ms min sec => IsDecimal min ∧ IsDecimal sec
  | hms hour min sec => IsDecimal hour ∧ IsDecimal min ∧ IsDecimal sec

instance (t : Stamp) : Decidable t.Valid :=
  match t with
  | s sec => inferInstanceAs (Decidable (IsDecimal sec))
  | ms min sec => inferInstanceAs (Decidable (IsDecimal min ∧ IsDecimal sec))
  | hms hour min sec =>
    inferInstanceAs (Decidable (IsDecimal hour ∧ IsDecimal min ∧ IsDecimal sec))

/-- Hours, a missing component counting as 0. -/
def hours : Stamp → Nat
  | hms hour _ _ => decimalValue hour
  | _ => 0

/-- Minutes, a missing component counting as 0. -/
def minutes : Stamp → Nat
  | hms _ min _ => decimalValue min
  | ms min _ => decimalValue min
  | s _ => 0

/-- Seconds component. -/
def secs : Stamp → Nat
  | hms _ _ sec => decimalValue sec
  | ms _ sec => decimalValue sec
  | s sec => decimalValue sec

/-- The number of seconds the timestamp denotes. -/
def seconds (t : Stamp) : Nat := 3600 * t.hours + 60 * t.minutes + t.secs

/-- Lexicographic order on the (hours, minutes, seconds) tuples. -/
def LexLt (a b : Stamp) : Prop :=
  a.hours < b.hours ∨ (a.hours = b.hours ∧
    (a.minutes < b.minutes ∨ (a.minutes = b.minutes ∧ a.secs < b.secs)))

instance (a b : Stamp) : Decidable (a.LexLt b) :=
  inferInstanceAs (Decidable (a.hours < b.hours ∨ (a.hours = b.hours ∧
    (a.minutes < b.minutes ∨ (a.minutes = b.minutes ∧ a.secs < b.secs)))))

end Stamp

/-! ## Theorems -/

theorem log2Fuel_eq (f n : Nat) (h : n ≤ f) : log2Fuel f n = Nat.log 2 n := by
  induction f generalizing n with
  | zero =>
    have : n = 0 := by omega
    subst this; simp [log2Fuel]
  | succ f ih =>
    unfold log2Fuel
    split
    · rw [Nat.log_of_lt (by assumption)]
    · rw [ih (n / 2) (by omega), Nat.log_of_one_lt_of_le (b := 2) (n := n) (by norm_num) (by omega)]

theorem natLog_bounds (n : Nat) (hn : n ≠ 0) :
    (2 : ℚ) ^ (log2Fuel n n) ≤ n ∧ (n : ℚ) < (2 : ℚ) ^ (log2Fuel n n + 1) := by
  rw [log2Fuel_eq n n le_rfl]
  constructor
  · exact_mod_cast Nat.pow_log_le_self 2 hn
  · exact_mod_cast Nat.lt_pow_succ_log_self (by norm_num) n

theorem abs_eq_natAbs_div (q : ℚ) : |q| = (q.num.natAbs : ℚ) / (q.den : ℚ) := by
  have h1 : (q.num.natAbs : ℚ) = |(q.num : ℚ)| := by
    rw [Nat.cast_natAbs, Int.cast_abs]
  rw [h1]
  conv_lhs => rw [← Rat.num_div_den q]
  rw [abs_div, Nat.abs_cast]

theorem floorLog2_spec (q : ℚ) (hq : q ≠ 0) :
    (2 : ℚ) ^ (floorLog2 q) ≤ |q| ∧ |q| < (2 : ℚ) ^ (floorLog2 q + 1) := by
  have hn : q.num.natAbs ≠ 0 := by
    simpa using hq
  have hd : q.den ≠ 0 := q.den_nz
  obtain ⟨hn1, hn2⟩ := natLog_bounds _ hn
  obtain ⟨hd1, hd2⟩ := natLog_bounds _ hd
  have habs := abs_eq_natAbs_div q
  set n : ℚ := (q.num.natAbs : ℚ)
  set d : ℚ := (q.den : ℚ)
  set a := log2Fuel q.num.natAbs q.num.natAbs
  set b := log2Fuel q.den q.den
  have hdpos : 0 < d := by
    exact Nat.cast_pos.mpr (Nat.pos_of_ne_zero hd)
  have hnpos : 0 ≤ n := Nat.cast_nonneg _
  have h2a : (0 : ℚ) < 2 ^ a := by positivity
  have h2b : (0 : ℚ) < 2 ^ b := by positivity
  have hk : (2 : ℚ) ^ ((a : ℤ) - (b : ℤ)) = 2 ^ a / 2 ^ b := by
    rw [zpow_sub₀ (by norm_num), zpow_natCast, zpow_natCast]
  unfold floorLog2
  simp only []
  split
  · rename_i h
    refine ⟨h, ?_⟩
    rw [add_comm, zpow_add₀ (by norm_num), hk, habs, zpow_one]
    rw [div_lt_iff₀ hdpos]
    have : (2 : ℚ) * (2 ^ a / 2 ^ b) * d = 2 ^ (a + 1) * (d / 2 ^ b) := by
      rw [pow_succ]; ring
    rw [this]
    have h1 : (1 : ℚ) ≤ d / 2 ^ b := by rw [le_div_iff₀ h2b]; linarith
    nlinarith
  · rename_i h
    push_neg at h
    constructor
    · rw [zpow_sub₀ (by norm_num), hk, habs, zpow_one, le_div_iff₀ hdpos]
      have : (2 : ℚ) ^ a / 2 ^ b / 2 * d = 2 ^ a * (d / 2 ^ (b + 1)) := by
        rw [pow_succ]; field_simp
      rw [this]
      have h1 : d / 2 ^ (b + 1) ≤ 1 := by
        rw [div_le_iff₀ (by positivity)]; linarith
      nlinarith
    · simpa using h

theorem roundHalfEven_intCast (k : ℤ) : roundHalfEven (k : ℚ) = k := by
  simp [roundHalfEven]

theorem floor_le_roundHalfEven (x : ℚ) : ⌊x⌋ ≤ roundHalfEven x := by
  unfold roundHalfEven
  simp only []
  split_ifs <;> omega

theorem roundHalfEven_le_floor_succ (x : ℚ) : roundHalfEven x ≤ ⌊x⌋ + 1 := by
  unfold roundHalfEven
  simp only []
  split_ifs <;> omega

theorem roundHalfEven_mono {x y : ℚ} (h : x ≤ y) : roundHalfEven x ≤ roundHalfEven y := by
  have hf : ⌊x⌋ ≤ ⌊y⌋ := Int.floor_mono h
  rcases lt_or_eq_of_le hf with hlt | heq
  · calc roundHalfEven x ≤ ⌊x⌋ + 1 := roundHalfEven_le_floor_succ x
      _ ≤ ⌊y⌋ := hlt
      _ ≤ roundHalfEven y := floor_le_roundHalfEven y
  · have hxy : x - ⌊x⌋ ≤ y - ⌊y⌋ := by rw [heq]; linarith
    unfold roundHalfEven
    simp only []
    rw [heq] at hxy ⊢
    split_ifs <;> first | omega | linarith

theorem int_div_zpow_nonpos (m : ℤ) (e : ℤ) (he : e ≤ 0) :
    (m : ℚ) / (2 : ℚ) ^ e = ((m * 2 ^ e.natAbs : ℤ) : ℚ) := by
  obtain ⟨n, rfl⟩ : ∃ n : ℕ, e = -(n : ℤ) := ⟨e.natAbs, by omega⟩
  simp [zpow_neg, zpow_natCast]

/-- A non-zero rational whose quotient by its rounding unit is an integer is
a double: rounding leaves it alone (below the overflow threshold). -/
theorem roundDouble_of_exact (q : ℚ) (hq : q ≠ 0) (k : ℤ)
    (hk : |q| / (2 : ℚ) ^ (max (floorLog2 q - 52) (-1074)) = k)
    (hlt : |q| < (2 : ℚ) ^ (1024 : ℤ)) : roundDouble q = .fin q := by
  unfold roundDouble
  rw [if_neg hq]
  simp only []
  rw [hk, roundHalfEven_intCast, ← hk]
  have h2 : (2 : ℚ) ^ (max (floorLog2 q - 52) (-1074)) ≠ 0 := by positivity
  rw [div_mul_cancel₀ _ h2, if_neg (not_le.mpr hlt)]
  congr 1
  rcases lt_or_gt_of_ne hq with h | h
  · rw [if_neg (not_lt.mpr h.le), abs_of_neg h, neg_neg]
  · rw [if_pos h, abs_of_pos h]

theorem floorLog2_le_of_abs_le (q : ℚ) (hq : q ≠ 0) (n : ℤ) (h : |q| ≤ (2 : ℚ) ^ n) :
    floorLog2 q ≤ n := by
  have h1 := (floorLog2_spec q hq).1
  have : (2 : ℚ) ^ floorLog2 q ≤ (2 : ℚ) ^ n := le_trans h1 h
  exact (zpow_le_zpow_iff_right₀ (by norm_num : (1 : ℚ) < 2)).mp this

theorem le_floorLog2_of_le_abs (q : ℚ) (hq : q ≠ 0) (n : ℤ) (h : (2 : ℚ) ^ n ≤ |q|) :
    n ≤ floorLog2 q := by
  have h1 := (floorLog2_spec q hq).2
  have : (2 : ℚ) ^ n < (2 : ℚ) ^ (floorLog2 q + 1) := lt_of_le_of_lt h h1
  have := (zpow_lt_zpow_iff_right₀ (by norm_num : (1 : ℚ) < 2)).mp this
  omega

/-- Integers of magnitude at most `2 ^ 53` are doubles. -/
theorem roundDouble_intCast (z : ℤ) (hz : |z| ≤ 2 ^ 53) : roundDouble (z : ℚ) = .fin z := by
  by_cases h0 : z = 0
  · subst h0; simp [roundDouble]
  have hq : (z : ℚ) ≠ 0 := by exact_mod_cast h0
  have habs : |(z : ℚ)| = ((|z| : ℤ) : ℚ) := by simp
  have hle : |(z : ℚ)| ≤ (2 : ℚ) ^ (53 : ℤ) := by
    rw [habs]; exact_mod_cast hz
  have hfl := floorLog2_le_of_abs_le _ hq 53 hle
  have hlt : |(z : ℚ)| < (2 : ℚ) ^ (1024 : ℤ) :=
    lt_of_le_of_lt hle (by norm_num)
  by_cases he : max (floorLog2 (z : ℚ) - 52) (-1074) ≤ 0
  · refine roundDouble_of_exact _ hq (|z| * 2 ^ (max (floorLog2 (z : ℚ) - 52) (-1074)).natAbs) ?_ hlt
    rw [habs]
    exact int_div_zpow_nonpos _ _ he
  · have hfl53 : floorLog2 (z : ℚ) = 53 := by omega
    have hmax : max (floorLog2 (z : ℚ) - 52) (-1074) = 1 := by rw [hfl53]; rfl
    have hge := (floorLog2_spec _ hq).1
    rw [hfl53] at hge
    have heq : |(z : ℚ)| = (2 : ℚ) ^ (53 : ℤ) := le_antisymm hle hge
    refine roundDouble_of_exact _ hq (2 ^ 52) ?_ hlt
    rw [hmax, heq]
    norm_num

theorem roundDouble_natCast (n : ℕ) (hn : n ≤ 2 ^ 53) : roundDouble (n : ℚ) = .fin n := by
  have := roundDouble_intCast (n : ℤ) (by simpa using (by exact_mod_cast hn : (n : ℤ) ≤ 2 ^ 53))
  simpa using this

/-- Rounding never goes below a natural number `c ≤ 2 ^ 53` that the rounded
value is at least. -/
theorem roundDouble_ge (c : ℕ) (hc : c ≤ 2 ^ 53) (q : ℚ) (h : (c : ℚ) ≤ q) :
    roundDouble q = .posInf ∨ ∃ v : ℚ, roundDouble q = .fin v ∧ (c : ℚ) ≤ v := by
  by_cases h0 : q = 0
  · right
    refine ⟨0, by simp [roundDouble, h0], ?_⟩
    rw [h0] at h; exact h
  have hc0 : (0 : ℚ) ≤ c := Nat.cast_nonneg c
  have hpos : 0 < q := lt_of_le_of_ne (le_trans hc0 h) (Ne.symm h0)
  have habs : |q| = q := abs_of_pos hpos
  set e : ℤ := max (floorLog2 q - 52) (-1074) with he
  have h2e : (0 : ℚ) < (2 : ℚ) ^ e := by positivity
  have hv : (c : ℚ) ≤ (roundHalfEven (|q| / (2 : ℚ) ^ e) : ℚ) * (2 : ℚ) ^ e := by
    rw [habs]
    by_cases hle : e ≤ 0
    · have hk := int_div_zpow_nonpos (c : ℤ) e hle
      have h1 : ((c : ℤ) : ℚ) / (2 : ℚ) ^ e ≤ q / (2 : ℚ) ^ e := by
        apply div_le_div_of_nonneg_right _ h2e.le
        simpa using h
      have h2 := roundHalfEven_mono h1
      rw [hk, roundHalfEven_intCast] at h2
      have h3 : (((c : ℤ) * 2 ^ e.natAbs : ℤ) : ℚ) ≤ (roundHalfEven (q / (2 : ℚ) ^ e) : ℚ) := by
        exact_mod_cast h2
      rw [← hk] at h3
      have := mul_le_mul_of_nonneg_right h3 h2e.le
      rw [div_mul_cancel₀ _ h2e.ne'] at this
      simpa using this
    · have hfl : floorLog2 q = e + 52 := by omega
      have hge := (floorLog2_spec q h0).1
      rw [habs, hfl, zpow_add₀ (by norm_num)] at hge
      have h1 : (((2 : ℤ) ^ 52 : ℤ) : ℚ) ≤ q / (2 : ℚ) ^ e := by
        rw [le_div_iff₀ h2e]
        have : (((2 : ℤ) ^ 52 : ℤ) : ℚ) = (2 : ℚ) ^ (52 : ℤ) := by norm_num
        rw [this, mul_comm]; exact hge
      have h2 := roundHalfEven_mono h1
      rw [roundHalfEven_intCast] at h2
      have h3 : (((2 : ℤ) ^ 52 : ℤ) : ℚ) ≤ (roundHalfEven (q / (2 : ℚ) ^ e) : ℚ) := by
        exact_mod_cast h2
      have h4 : (2 : ℚ) ≤ (2 : ℚ) ^ e := by
        have : (2 : ℚ) ^ (1 : ℤ) ≤ (2 : ℚ) ^ e :=
          zpow_le_zpow_right₀ (by norm_num) (by omega)
        simpa using this
      have h5 : (c : ℚ) ≤ 2 ^ 53 := by exact_mod_cast hc
      have h6 : (((2 : ℤ) ^ 52 : ℤ) : ℚ) = 2 ^ 52 := by norm_num
      rw [h6] at h3
      calc (c : ℚ) ≤ 2 ^ 53 := h5
        _ = 2 ^ 52 * 2 := by norm_num
        _ ≤ (roundHalfEven (q / (2 : ℚ) ^ e) : ℚ) * (2 : ℚ) ^ e :=
            mul_le_mul h3 h4 (by norm_num) (le_trans (by norm_num) h3)
  unfold roundDouble
  rw [if_neg h0]
  simp only [if_pos hpos]
  rw [← he]
  split
  · left; rfl
  · right; exact ⟨_, rfl, hv⟩

/-! ### Parsing decimal numerals -/

theorem isDigit_not_ws {c : Char} (h : isDigit c = true) : isWhiteSpace c = false := by
  simp only [isDigit, Bool.and_eq_true, decide_eq_true_eq] at h
  simp only [isWhiteSpace, List.mem_cons, List.mem_singleton, Bool.or_eq_false_iff,
    decide_eq_false_iff_not, Bool.and_eq_false_iff, List.not_mem_nil, or_false]
  omega

theorem isDigit_toNat {c : Char} (h : isDigit c = true) : 48 ≤ c.toNat ∧ c.toNat ≤ 57 := by
  simpa [isDigit] using h

theorem isDigit_ne {c d : Char} (h : isDigit c = true) (hd : isDigit d = false) : c ≠ d := by
  rintro rfl; rw [h] at hd; exact Bool.noConfusion hd

theorem stripSign_digit {c : Char} (r : List Char) (h : isDigit c = true) :
    stripSign (c :: r) = (false, c :: r) := by
  have h1 : c ≠ '-' := isDigit_ne h (by decide)
  have h2 : c ≠ '+' := isDigit_ne h (by decide)
  unfold stripSign
  split
  · rename_i heq; cases heq; exact absurd rfl h1
  · rename_i heq; cases heq; exact absurd rfl h2
  · rfl

theorem stripRadix_decimal (ds : List Char) (h : ∀ c ∈ ds, isDigit c = true) :
    stripRadix ds = (10, ds) := by
  unfold stripRadix
  split
  · have := h 'x' (by simp)
    exact absurd this (by decide)
  · have := h 'X' (by simp)
    exact absurd this (by decide)
  · rfl

theorem digitValue_digit {c : Char} (h : isDigit c = true) :
    digitValue 10 c = some (c.toNat - 48) := by
  simp [digitValue, h]

theorem takeWhile_digits (ds : List Char) (h : ∀ c ∈ ds, isDigit c = true) :
    ds.takeWhile (fun c => (digitValue 10 c).isSome) = ds := by
  rw [List.takeWhile_eq_self_iff]
  intro c hc
  simp [digitValue_digit (h c hc)]

theorem foldl_digits (ds : List Char) (h : ∀ c ∈ ds, isDigit c = true) (acc : Nat) :
    ds.foldl (fun acc c => acc * 10 + (digitValue 10 c).getD 0) acc
      = acc * 10 ^ ds.length + Nat.ofDigits 10 (ds.reverse.map (fun c => c.toNat - 48)) := by
  induction ds generalizing acc with
  | nil => simp
  | cons c cs ih =>
    have hc := h c (by simp)
    have hcs : ∀ d ∈ cs, isDigit d = true := fun d hd => h d (by simp [hd])
    simp only [List.foldl_cons, List.reverse_cons, List.map_append, List.map_cons, List.map_nil,
      List.length_cons]
    rw [ih hcs, digitValue_digit hc, Nat.ofDigits_append]
    simp only [Option.getD_some, List.length_map, List.length_reverse, Nat.ofDigits_singleton]
    ring

theorem digitsValue_decimal (ds : List Char) (h : ∀ c ∈ ds, isDigit c = true) :
    digitsValue 10 ds = decimalValue ds := by
  unfold digitsValue decimalValue
  rw [foldl_digits ds h 0]; simp

/-- On a decimal numeral `parseInt` reads the whole numeral and rounds its value. -/
theorem parseIntChars_decimal (ds : List Char) (h : IsDecimal ds) :
    parseIntChars ds = roundDouble (decimalValue ds) := by
  obtain ⟨hne, hd⟩ := h
  obtain ⟨c, r, rfl⟩ := List.exists_cons_of_ne_nil hne
  have hc := hd c (by simp)
  have hdrop : (c :: r).dropWhile isWhiteSpace = c :: r := by
    rw [List.dropWhile_cons_of_neg]; simp [isDigit_not_ws hc]
  unfold parseIntChars
  simp only [hdrop, stripSign_digit r hc, stripRadix_decimal _ hd, takeWhile_digits _ hd,
    digitsValue_decimal _ hd]
  simp

theorem splitOnChar_no_sep (sep : Char) (a : List Char) (h : ∀ c ∈ a, c ≠ sep) :
    splitOnChar sep a = [a] := by
  induction a with
  | nil => rfl
  | cons c cs ih =>
    have hc := h c (by simp)
    have := ih (fun d hd => h d (by simp [hd]))
    simp [splitOnChar, hc, this]

theorem splitOnChar_append (sep : Char) (a rest : List Char) (h : ∀ c ∈ a, c ≠ sep) :
    splitOnChar sep (a ++ sep :: rest) = a :: splitOnChar sep rest := by
  induction a with
  | nil => simp [splitOnChar]
  | cons c cs ih =>
    have hc := h c (by simp)
    have := ih (fun d hd => h d (by simp [hd]))
    simp [splitOnChar, hc, this]

theorem IsDecimal.no_colon {ds : List Char} (h : IsDecimal ds) : ∀ c ∈ ds, c ≠ ':' :=
  fun c hc => isDigit_ne (h.2 c hc) (by decide)

/-! ### Arithmetic on small naturals is exact -/

theorem ofNat_eq (n : ℕ) (hn : n ≤ 2 ^ 53) : JSNum.ofNat n = .fin n :=
  roundDouble_natCast n hn

theorem mul_fin_nat (a b : ℕ) (h : a * b ≤ 2 ^ 53) :
    (JSNum.fin a).mul (.fin b) = .fin ((a * b : ℕ) : ℚ) := by
  show roundDouble ((a : ℚ) * (b : ℚ)) = _
  rw [← Nat.cast_mul]; exact roundDouble_natCast _ h

theorem add_fin_nat (a b : ℕ) (h : a + b ≤ 2 ^ 53) :
    (JSNum.fin a).add (.fin b) = .fin ((a + b : ℕ) : ℚ) := by
  show roundDouble ((a : ℚ) + (b : ℚ)) = _
  rw [← Nat.cast_add]; exact roundDouble_natCast _ h

/-! ### `timeToSeconds` on the accepted forms -/

theorem timeToSeconds_s (sec : List Char) (hs : IsDecimal sec) :
    timeToSeconds (Stamp.s sec).text = roundDouble (decimalValue sec) := by
  unfold timeToSeconds
  simp only [Stamp.text, splitOnChar_no_sep ':' sec hs.no_colon, List.map_cons, List.map_nil,
    parseInt, parseIntChars_decimal sec hs]

theorem timeToSeconds_ms (min sec : List Char) (hm : IsDecimal min) (hs : IsDecimal sec) :
    timeToSeconds (Stamp.ms min sec).text
      = ((roundDouble (decimalValue min)).mul (.ofNat 60)).add (roundDouble (decimalValue sec)) := by
  unfold timeToSeconds
  simp only [Stamp.text, splitOnChar_append ':' min sec hm.no_colon,
    splitOnChar_no_sep ':' sec hs.no_colon, List.map_cons, List.map_nil,
    parseIntChars_decimal min hm, parseIntChars_decimal sec hs]

theorem timeToSeconds_hms (hour min sec : List Char) (hh : IsDecimal hour) (hm : IsDecimal min)
    (hs : IsDecimal sec) :
    timeToSeconds (Stamp.hms hour min sec).text
      = (((roundDouble (decimalValue hour)).mul (.ofNat 3600)).add
          ((roundDouble (decimalValue min)).mul (.ofNat 60))).add
          (roundDouble (decimalValue sec)) := by
  unfold timeToSeconds
  simp only [Stamp.text, splitOnChar_append ':' hour _ hh.no_colon,
    splitOnChar_append ':' min sec hm.no_colon,
    splitOnChar_no_sep ':' sec hs.no_colon, List.map_cons, List.map_nil,
    parseIntChars_decimal hour hh, parseIntChars_decimal min hm, parseIntChars_decimal sec hs]

/-- Below `2 ^ 53` seconds, `timeToSeconds` of a valid timestamp is the number
of seconds it denotes. -/
theorem timeToSeconds_exact (t : Stamp) (hv : t.Valid) (hb : t.seconds ≤ 2 ^ 53) :
    timeToSeconds t.text = .fin (t.seconds : ℚ) := by
  cases t with
  | s sec =>
    simp only [Stamp.seconds, Stamp.hours, Stamp.minutes, Stamp.secs] at hb ⊢
    rw [timeToSeconds_s sec hv, roundDouble_natCast _ (by omega)]
    simp
  | ms min sec =>
    simp only [Stamp.seconds, Stamp.hours, Stamp.minutes, Stamp.secs] at hb ⊢
    rw [timeToSeconds_ms min sec hv.1 hv.2, roundDouble_natCast _ (by omega),
      roundDouble_natCast _ (by omega), ofNat_eq 60 (by norm_num),
      mul_fin_nat _ _ (by omega), add_fin_nat _ _ (by omega)]
    congr 1; push_cast; ring
  | hms hour min sec =>
    simp only [Stamp.seconds, Stamp.hours, Stamp.minutes, Stamp.secs] at hb ⊢
    rw [timeToSeconds_hms hour min sec hv.1 hv.2.1 hv.2.2, roundDouble_natCast _ (by omega),
      roundDouble_natCast _ (by omega), roundDouble_natCast _ (by omega),
      ofNat_eq 60 (by norm_num), ofNat_eq 3600 (by norm_num),
      mul_fin_nat _ _ (by omega), mul_fin_nat _ _ (by omega), add_fin_nat _ _ (by omega),
      add_fin_nat _ _ (by omega)]
    congr 1; push_cast; ring

/-! ### Claims on the Time Range Resolver -/

/-- C1 (amended): for every timestamp in an accepted form `S`, `M:S`, `H:M:S`
whose components are decimal numerals and which denotes at most `2 ^ 53`
seconds, `timeToSeconds` returns the number of seconds it denotes,
`3600 * H + 60 * M + S` with a missing component counting as 0. -/
theorem C1_timeToSeconds_denotes (t : Stamp) (hv : t.Valid) (hb : t.seconds ≤ 2 ^ 53) :
    timeToSeconds t.text = .fin (t.seconds : ℚ) :=
  timeToSeconds_exact t hv hb

/-- Witness of C1: `"1:30"` gives 90 and `"1:00"` gives 60. -/
theorem C1_timeToSeconds_denotes_witness :
    ((Stamp.ms ['1'] ['3', '0']).Valid ∧ (Stamp.ms ['1'] ['3', '0']).seconds ≤ 2 ^ 53 ∧
      (Stamp.ms ['1'] ['3', '0']).seconds = 90 ∧
      timeToSeconds "1:30" = .fin ((Stamp.ms ['1'] ['3', '0']).seconds : ℚ)) ∧
    ((Stamp.ms ['1'] ['0', '0']).seconds = 60 ∧
      timeToSeconds "1:00" = .fin ((Stamp.ms ['1'] ['0', '0']).seconds : ℚ)) :=
  ⟨⟨by decide, by decide, by decide,
    C1_timeToSeconds_denotes (Stamp.ms ['1'] ['3', '0']) (by decide) (by decide)⟩,
    by decide, C1_timeToSeconds_denotes (Stamp.ms ['1'] ['0', '0']) (by decide) (by decide)⟩

/-- C1 as stated fails: the numeral `9007199254740993` (`2 ^ 53 + 1`) is an
accepted timestamp, and `timeToSeconds` returns `9007199254740992`. -/
theorem C1_counterexample :
    (Stamp.s "9007199254740993".data).Valid ∧
      (Stamp.s "9007199254740993".data).seconds = 9007199254740993 ∧
      timeToSeconds (Stamp.s "9007199254740993".data).text = .fin 9007199254740992 ∧
      timeToSeconds (Stamp.s "9007199254740993".data).text
        ≠ .fin ((Stamp.s "9007199254740993".data).seconds : ℚ) := by
  decide!

/-- C2: `calculateDuration(start, end)` is `timeToSeconds(end) - timeToSeconds(start)`
for every pair of strings; for valid timestamps of at most `2 ^ 53` seconds that
is the exact difference of the seconds they denote; and
`calculateDuration("00:01:00", "00:02:30")` is 90. -/
theorem C2_calculateDuration :
    (∀ start stop : String,
        calculateDuration start stop = (timeToSeconds stop).sub (timeToSeconds start)) ∧
      (∀ a b : Stamp, a.Valid → b.Valid → a.seconds ≤ 2 ^ 53 → b.seconds ≤ 2 ^ 53 →
        calculateDuration a.text b.text = .fin (((b.seconds : ℤ) - (a.seconds : ℤ) : ℤ) : ℚ)) ∧
      calculateDuration "00:01:00" "00:02:30" = .fin 90 := by
  refine ⟨fun _ _ => rfl, ?_, by decide!⟩
  intro a b ha hb hab hbb
  show (timeToSeconds b.text).sub (timeToSeconds a.text) = _
  rw [timeToSeconds_exact a ha hab, timeToSeconds_exact b hb hbb]
  show roundDouble ((b.seconds : ℚ) + -(a.seconds : ℚ)) = _
  have hcast : (b.seconds : ℚ) + -(a.seconds : ℚ)
      = (((b.seconds : ℤ) - (a.seconds : ℤ) : ℤ) : ℚ) := by
    push_cast; ring
  rw [hcast]
  apply roundDouble_intCast
  rw [abs_le]
  constructor <;> omega

/-- Witness of C2: from `00:01:00` to `00:02:30`. -/
theorem C2_calculateDuration_witness :
    (Stamp.hms ['0', '0'] ['0', '1'] ['0', '0']).text = "00:01:00" ∧
      (Stamp.hms ['0', '0'] ['0', '2'] ['3', '0']).text = "00:02:30" ∧
      calculateDuration (Stamp.hms ['0', '0'] ['0', '1'] ['0', '0']).text
          (Stamp.hms ['0', '0'] ['0', '2'] ['3', '0']).text
        = .fin ((((Stamp.hms ['0', '0'] ['0', '2'] ['3', '0']).seconds : ℤ)
            - ((Stamp.hms ['0', '0'] ['0', '1'] ['0', '0']).seconds : ℤ) : ℤ) : ℚ) :=
  ⟨by decide, by decide, C2_calculateDuration.2.1 (Stamp.hms ['0', '0'] ['0', '1'] ['0', '0'])
    (Stamp.hms ['0', '0'] ['0', '2'] ['3', '0']) (by decide) (by decide) (by decide) (by decide)⟩

/-- C3 (amended): for valid timestamps `a` and `b`, if the (hours, minutes,
seconds) tuple of `a` is lexicographically smaller than that of `b`, the minutes
and seconds of `a` are below 60, and `b` denotes at most `2 ^ 53` seconds, then
`timeToSeconds(a) < timeToSeconds(b)`. -/
theorem C3_timeToSeconds_strictMono (a b : Stamp) (ha : a.Valid) (hb : b.Valid)
    (hlex : a.LexLt b) (hmin : a.minutes < 60) (hsec : a.secs < 60)
    (hbound : b.seconds ≤ 2 ^ 53) :
    (timeToSeconds a.text).lt (timeToSeconds b.text) = true := by
  have hlt : a.seconds < b.seconds := by
    unfold Stamp.LexLt at hlex
    unfold Stamp.seconds
    omega
  rw [timeToSeconds_exact a ha (by omega), timeToSeconds_exact b hb hbound]
  simp only [JSNum.lt, decide_eq_true_eq]
  exact_mod_cast hlt

/-- Witness of C3: `"1:30"` against `"2:00"`. -/
theorem C3_timeToSeconds_strictMono_witness :
    (Stamp.ms ['1'] ['3', '0']).Valid ∧ (Stamp.ms ['2'] ['0', '0']).Valid ∧
      (Stamp.ms ['1'] ['3', '0']).LexLt (Stamp.ms ['2'] ['0', '0']) ∧
      (timeToSeconds "1:30").lt (timeToSeconds "2:00") = true :=
  ⟨by decide, by decide, by decide,
    C3_timeToSeconds_strictMono (Stamp.ms ['1'] ['3', '0']) (Stamp.ms ['2'] ['0', '0'])
      (by decide) (by decide) (by decide) (by decide) (by decide)
      (by decide)⟩

/-- C3 as stated fails twice over.  `"90"` has tuple (0, 0, 90), below the
tuple (0, 1, 0) of `"1:00"`, yet 90 is not below 60.  And `2 ^ 53` seconds
against `2 ^ 53 + 1` seconds give the same double. -/
theorem C3_counterexample :
    ((Stamp.s ['9', '0']).Valid ∧ (Stamp.ms ['1'] ['0', '0']).Valid ∧
      (Stamp.s ['9', '0']).LexLt (Stamp.ms ['1'] ['0', '0']) ∧
      timeToSeconds (Stamp.s ['9', '0']).text = .fin 90 ∧
      timeToSeconds (Stamp.ms ['1'] ['0', '0']).text = .fin 60 ∧
      (timeToSeconds (Stamp.s ['9', '0']).text).lt
        (timeToSeconds (Stamp.ms ['1'] ['0', '0']).text) = false) ∧
    ((Stamp.s "9007199254740992".data).Valid ∧ (Stamp.s "9007199254740993".data).Valid ∧
      (Stamp.s "9007199254740992".data).LexLt (Stamp.s "9007199254740993".data) ∧
      (timeToSeconds (Stamp.s "9007199254740992".data).text).lt
        (timeToSeconds (Stamp.s "9007199254740993".data).text) = false) := by
  decide!

/-! ### Progress percent ranges -/

theorem roundDouble_atLeast (c : ℕ) (hc : c ≤ 2 ^ 53) (q : ℚ) (h : (c : ℚ) ≤ q) :
    (roundDouble q).AtLeast c := by
  rcases roundDouble_ge c hc q h with h1 | ⟨v, h1, h2⟩
  · exact Or.inl h1
  · exact Or.inr ⟨v, h2, h1⟩

theorem roundDouble_nonNeg (q : ℚ) (h : 0 ≤ q) : (roundDouble q).NonNeg := by
  rcases roundDouble_ge 0 (by norm_num) q (by simpa using h) with h1 | ⟨v, h1, h2⟩
  · exact Or.inl h1
  · exact Or.inr ⟨v, by simpa using h2, h1⟩

theorem JSNum.NonNeg.mul_const {x : JSNum} (hx : x.NonNeg) (c : ℕ) (hc : 0 < c) (hc2 : c ≤ 2 ^ 53) :
    (x.mul (.ofNat c)).NonNeg := by
  have hcq : (0 : ℚ) < c := Nat.cast_pos.mpr hc
  rw [ofNat_eq c hc2]
  rcases hx with rfl | ⟨v, hv, rfl⟩
  · left; simp [JSNum.mul, hcq.ne', hcq]
  · exact roundDouble_nonNeg _ (mul_nonneg hv hcq.le)

theorem JSNum.NonNeg.div_const {x : JSNum} (hx : x.NonNeg) (c : ℕ) (hc : 0 < c) (hc2 : c ≤ 2 ^ 53) :
    (x.div (.ofNat c)).NonNeg := by
  have hcq : (0 : ℚ) < c := Nat.cast_pos.mpr hc
  rw [ofNat_eq c hc2]
  rcases hx with rfl | ⟨v, hv, rfl⟩
  · left; simp [JSNum.div, hcq.le]
  · simp only [JSNum.div, hcq.ne', if_false]
    exact roundDouble_nonNeg _ (div_nonneg hv hcq.le)

theorem JSNum.NonNeg.add {x y : JSNum} (hx : x.NonNeg) (hy : y.NonNeg) : (x.add y).NonNeg := by
  rcases hx with rfl | ⟨v, hv, rfl⟩ <;> rcases hy with rfl | ⟨w, hw, rfl⟩
  · left; rfl
  · left; rfl
  · left; rfl
  · exact roundDouble_nonNeg _ (add_nonneg hv hw)

theorem atLeast_const_add (c : ℕ) (hc : c ≤ 2 ^ 53) {y : JSNum} (hy : y.NonNeg) :
    ((JSNum.ofNat c).add y).AtLeast c := by
  rw [ofNat_eq c hc]
  rcases hy with rfl | ⟨w, hw, rfl⟩
  · left; rfl
  · exact roundDouble_atLeast c hc _ (by linarith)

theorem min_le_const {x : JSNum} (hx : x.NonNeg) (c : ℕ) (hc : c ≤ 2 ^ 53) :
    (JSNum.min x (.ofNat c)).le (.ofNat c) = true := by
  rw [ofNat_eq c hc]
  rcases hx with rfl | ⟨v, hv, rfl⟩
  · simp [JSNum.min, JSNum.le]
  · by_cases h : v ≤ (c : ℚ) <;> simp [JSNum.min, JSNum.le, h]

theorem const_le_min {x : JSNum} (a c : ℕ) (hx : x.AtLeast a) (hac : a ≤ c) (hc : c ≤ 2 ^ 53) :
    (JSNum.ofNat a).le (JSNum.min x (.ofNat c)) = true := by
  have hacq : (a : ℚ) ≤ c := Nat.cast_le.mpr hac
  rw [ofNat_eq c hc, ofNat_eq a (le_trans hac hc)]
  rcases hx with rfl | ⟨v, hv, rfl⟩
  · simp [JSNum.min, JSNum.le, hacq]
  · by_cases h : v ≤ (c : ℚ) <;> simp [JSNum.min, JSNum.le, h, hv, hacq]

theorem JSNum.AtLeast.nonNeg {c : ℕ} {x : JSNum} (hx : x.AtLeast c) : x.NonNeg := by
  rcases hx with rfl | ⟨v, hv, rfl⟩
  · exact Or.inl rfl
  · exact Or.inr ⟨v, le_trans (Nat.cast_nonneg c) hv, rfl⟩

theorem dropLiteral_cons_ne (l c : Char) (ls cs : List Char) (h : l ≠ c) :
    dropLiteral (l :: ls) (c :: cs) = none := by
  simp [dropLiteral, h]

/-- `parseFloat` of a text that starts with a digit is a Number that is
neither NaN nor negative. -/
theorem parseFloatChars_digit (c : Char) (r : List Char) (hc : isDigit c = true) :
    (parseFloatChars (c :: r)).NonNeg := by
  have hdrop : (c :: r).dropWhile isWhiteSpace = c :: r := by
    rw [List.dropWhile_cons_of_neg]; simp [isDigit_not_ws hc]
  have hI : dropLiteral "Infinity".data (c :: r) = none :=
    dropLiteral_cons_ne _ _ _ _ (fun h => (isDigit_ne hc (by decide : isDigit 'I' = false)) h.symm)
  have hip : (c :: r).takeWhile isDigit ≠ [] := by
    simp [List.takeWhile_cons, hc]
  unfold parseFloatChars
  simp only [hdrop, stripSign_digit r hc, hI]
  rw [if_neg (fun h => hip h.1)]
  apply roundDouble_nonNeg
  simp only [Bool.false_eq_true, if_false]
  positivity

theorem searchFirst_some {α : Type} (m : List Char → Option α) (s : List Char) (r : α)
    (h : searchFirst m s = some r) : ∃ t, m t = some r := by
  induction s with
  | nil => exact ⟨[], h⟩
  | cons c cs ih =>
    unfold searchFirst at h
    split at h
    · rename_i r2 heq
      cases h
      exact ⟨_, heq⟩
    · exact ih h

theorem takeWhile_ne_nil_head (p : Char → Bool) (l : List Char) (h : l.takeWhile p ≠ []) :
    ∃ c r, l.takeWhile p = c :: r ∧ p c = true := by
  obtain ⟨c, r, hcr⟩ := List.exists_cons_of_ne_nil h
  refine ⟨c, r, hcr, ?_⟩
  have : c ∈ l.takeWhile p := by rw [hcr]; simp
  exact (List.mem_takeWhile_imp this)

theorem takeWhile_isDecimal (l : List Char) (h : l.takeWhile isDigit ≠ []) :
    IsDecimal (l.takeWhile isDigit) :=
  ⟨h, fun _ hc => List.mem_takeWhile_imp hc⟩

theorem fetchMatchHere_digit (s cap : List Char) (h : fetchMatchHere s = some cap) :
    ∃ c r, cap = c :: r ∧ isDigit c = true := by
  unfold fetchMatchHere at h
  split at h
  · cases h
  · rename_i r1 _
    split at h
    · cases h
    · simp only [] at h
      split at h
      · cases h
      · rename_i hd1
        obtain ⟨c, r, hcr, hc⟩ := takeWhile_ne_nil_head _ _ hd1
        split at h
        · cases h
          exact ⟨c, _, by rw [hcr, List.cons_append, List.cons_append], hc⟩
        · cases h

theorem trimMatchHere_shape (s h m sec : List Char) (hm : trimMatchHere s = some (h, m, sec)) :
    IsDecimal h ∧ IsDecimal m ∧ ∃ c r, sec = c :: r ∧ isDigit c = true := by
  unfold trimMatchHere at hm
  split at hm
  · cases hm
  · simp only [] at hm
    split at hm
    · cases hm
    · rename_i hh
      split at hm
      · split at hm
        · cases hm
        · rename_i hm2
          split at hm
          · split at hm
            · cases hm
            · rename_i hs1
              split at hm
              · split at hm
                · cases hm
                · cases hm
                  obtain ⟨c, r, hcr, hc⟩ := takeWhile_ne_nil_head _ _ hs1
                  exact ⟨takeWhile_isDecimal _ hh, takeWhile_isDecimal _ hm2,
                    c, _, by rw [hcr, List.cons_append], hc⟩
              · cases hm
          · cases hm
      · cases hm

theorem parseIntChars_nonNeg (ds : List Char) (h : IsDecimal ds) : (parseIntChars ds).NonNeg := by
  rw [parseIntChars_decimal ds h]
  exact roundDouble_nonNeg _ (Nat.cast_nonneg _)

theorem fetchOnData_range (text : String) (r : ProgressRecord) (h : fetchOnData text = some r) :
    r.percent.le (.ofNat 80) = true := by
  unfold fetchOnData at h
  split at h
  · rename_i cap hcap
    obtain ⟨t, ht⟩ := searchFirst_some _ _ _ hcap
    obtain ⟨c, rest, rfl, hc⟩ := fetchMatchHere_digit _ _ ht
    cases h
    exact min_le_const (parseFloatChars_digit c rest hc) 80 (by norm_num)
  · cases h

theorem trimOnData_range (text : String) (r : ProgressRecord) (h : trimOnData text = some r) :
    (JSNum.ofNat 80).le r.percent = true ∧ r.percent.le (.ofNat 99) = true := by
  unfold trimOnData at h
  split at h
  · rename_i hh mm ss hcap
    obtain ⟨t, ht⟩ := searchFirst_some _ _ _ hcap
    obtain ⟨h1, h2, c, rest, rfl, hc⟩ := trimMatchHere_shape _ _ _ _ ht
    cases h
    have htotal : (((parseIntChars hh).mul (.ofNat 3600)).add
        ((parseIntChars mm).mul (.ofNat 60))).add (parseFloatChars (c :: rest)) |>.NonNeg :=
      JSNum.NonNeg.add (JSNum.NonNeg.add (JSNum.NonNeg.mul_const (parseIntChars_nonNeg _ h1) 3600 (by norm_num)
        (by norm_num)) (JSNum.NonNeg.mul_const (parseIntChars_nonNeg _ h2) 60 (by norm_num)
        (by norm_num))) (parseFloatChars_digit c rest hc)
    have hscaled := JSNum.NonNeg.mul_const (JSNum.NonNeg.div_const htotal 30 (by norm_num) (by norm_num)) 20
      (by norm_num) (by norm_num)
    have h80 := atLeast_const_add 80 (by norm_num) hscaled
    exact ⟨const_le_min 80 99 h80 (by norm_num) (by norm_num),
      min_le_const h80.nonNeg 99 (by norm_num)⟩
  · cases h

/-- C4: whatever chunk of fetch-tool output arrives, a percent the fetch
handler writes to the progress store is at most 80, and whatever chunk of
trim-tool output arrives, a percent the trim handler writes lies in [80, 99]. -/
theorem C4_percent_in_phase_range (text : String) :
    (∀ r, fetchOnData text = some r → r.percent.le (.ofNat 80) = true) ∧
    (∀ r, trimOnData text = some r →
      (JSNum.ofNat 80).le r.percent = true ∧ r.percent.le (.ofNat 99) = true) :=
  ⟨fun r h => fetchOnData_range text r h, fun r h => trimOnData_range text r h⟩

/-- Witness of C4: a fetch chunk at 45.3% and a trim chunk at 15 seconds. -/
theorem C4_percent_in_phase_range_witness :
    (∃ r, fetchOnData "[download]  45.3% of 10.00MiB" = some r ∧
      r.percent.le (.ofNat 80) = true) ∧
    (∃ r, trimOnData "frame=  360 time=00:00:15.00 bitrate=1000kbits/s" = some r ∧
      r.percent = .fin 90 ∧ (JSNum.ofNat 80).le r.percent = true ∧
      r.percent.le (.ofNat 99) = true) :=
  ⟨⟨(fetchOnData "[download]  45.3% of 10.00MiB").get (by decide!), by decide!,
      (C4_percent_in_phase_range "[download]  45.3% of 10.00MiB").1 _ (by decide!)⟩,
    ⟨(trimOnData "frame=  360 time=00:00:15.00 bitrate=1000kbits/s").get (by decide!),
      by decide!, by decide!,
      (C4_percent_in_phase_range "frame=  360 time=00:00:15.00 bitrate=1000kbits/s").2 _
        (by decide!)⟩⟩

/-! ### The pipeline: bookkeeping -/

@[simp] theorem writes_setProgress (s : State) (r : ProgressRecord) :
    (s.setProgress r).writes = s.writes ++ [r] := by
  simp [State.setProgress, State.writes, List.filterMap_append]

@[simp] theorem responses_setProgress (s : State) (r : ProgressRecord) :
    (s.setProgress r).responses = s.responses := by
  simp [State.setProgress, State.responses, List.filterMap_append]

@[simp] theorem spawned_setProgress (s : State) (r : ProgressRecord) :
    (s.setProgress r).spawned = s.spawned := by
  simp [State.setProgress, State.spawned, List.filterMap_append]

theorem onFailure_spec (j : Job) (s : State) (m : Text) :
    (onFailure j s m).writes = s.writes ++ [errorRecord m] ∧
    (onFailure j s m).store = some (errorRecord m) ∧
    (onFailure j s m).responses
      = s.responses ++ [(500, .error (.lit "Download failed: " :: m) (some j.downloadId))] ∧
    (onFailure j s m).spawned = s.spawned ∧
    (onFailure j s m).phase = .done ∧
    SameProcs s (onFailure j s m) := by
  unfold onFailure SameProcs
  simp only [State.setProgress, State.emit, State.writes, State.responses, State.spawned]
  split_ifs <;> simp [List.filterMap_append]

theorem finish_spec (j : Job) (s : State) :
    ((finish j s).writes = s.writes ++ [completedRecord] ∧
        (finish j s).store = some completedRecord ∧
        (∃ size, statSize s.files j.finalPath = some size ∧
          (finish j s).responses = s.responses ++ [(200, successBody j size)]) ∨
      (∃ m, (finish j s).writes = s.writes ++ [completedRecord, errorRecord m] ∧
        (finish j s).store = some (errorRecord m) ∧
        statSize s.files j.finalPath = none ∧
        (finish j s).responses
          = s.responses ++ [(500, .error (.lit "Download failed: " :: m) (some j.downloadId))])) ∧
    (finish j s).spawned = s.spawned ∧
    (finish j s).phase = .done ∧
    SameProcs s (finish j s) := by
  unfold finish
  simp only []
  cases hst : statSize (s.setProgress completedRecord).files j.finalPath with
  | none =>
    simp only []
    obtain ⟨h1, h2, h3, h4, h5, h6⟩ := onFailure_spec j (s.setProgress completedRecord)
      [.lit ("ENOENT: no such file or directory, stat '" ++ j.finalPath ++ "'")]
    refine ⟨Or.inr ⟨_, ?_, h2, ?_, ?_⟩, ?_, h5, ?_⟩
    · rw [h1]; simp
    · simpa [State.setProgress] using hst
    · rw [h3]; simp
    · rw [h4]; simp
    · simpa [SameProcs, State.setProgress] using h6
  | some size =>
    simp only []
    refine ⟨Or.inl ⟨?_, ?_, ⟨size, ?_, ?_⟩⟩, ?_, ?_, ?_⟩
    · simp [State.setProgress, State.emit, State.writes, List.filterMap_append]
    · simp [State.setProgress, State.emit]
    · simpa [State.setProgress] using hst
    · simp [State.setProgress, State.emit, State.responses, List.filterMap_append]
    · simp [State.setProgress, State.emit, State.spawned, List.filterMap_append]
    · simp [State.setProgress, State.emit]
    · simp [SameProcs, State.setProgress, State.emit]

theorem afterFetch_missing (j : Job) (s : State) (hu : j.useTimestamps.truthy = true)
    (hex : existsSync s.files j.tempFile = false) :
    afterFetch j s = onFailure j (s.setProgress processingRecord) [.lit "Input file not found"] := by
  unfold afterFetch
  simp only [hu, if_true]
  rw [if_pos (by simpa [State.setProgress] using hex)]

theorem afterFetch_trim (j : Job) (s : State) (hu : j.useTimestamps.truthy = true)
    (hex : existsSync s.files j.tempFile = true) :
    afterFetch j s = { (s.setProgress processingRecord).emit (.spawn ffmpegPath (trimArgs j)) with
      trimSpawned := true, phase := .awaitTrim } := by
  unfold afterFetch
  simp only [hu, if_true]
  rw [if_neg (by simp [State.setProgress, hex])]

theorem afterFetch_noRename (j : Job) (s : State) (hu : j.useTimestamps.truthy = false)
    (hr : renameSync s.files j.tempFile j.finalPath = none) :
    afterFetch j s = onFailure j s [.lit ("ENOENT: no such file or directory, rename '" ++
      j.tempFile ++ "' -> '" ++ j.finalPath ++ "'")] := by
  unfold afterFetch
  simp [hu, hr]

theorem afterFetch_rename (j : Job) (s : State) (hu : j.useTimestamps.truthy = false)
    (files : Files) (hr : renameSync s.files j.tempFile j.finalPath = some files) :
    afterFetch j s = finish j { s.emit (.rename j.tempFile j.finalPath) with files := files } := by
  unfold afterFetch
  simp [hu, hr]

theorem afterFetch_spec (j : Job) (s : State) :
    (afterFetch j s).fetchSpawned = s.fetchSpawned ∧
    (afterFetch j s).fetchClosed = s.fetchClosed ∧
    (afterFetch j s).trimClosed = s.trimClosed ∧
    (((afterFetch j s).phase = .awaitTrim ∧ (afterFetch j s).trimSpawned = true ∧
        j.useTimestamps.truthy = true ∧
        (afterFetch j s).writes = s.writes ++ [processingRecord] ∧
        (afterFetch j s).store = some processingRecord ∧
        (afterFetch j s).responses = s.responses ∧
        (afterFetch j s).spawned = s.spawned ++ [ffmpegPath]) ∨
      ((afterFetch j s).phase = .done ∧ (afterFetch j s).trimSpawned = s.trimSpawned ∧
        (afterFetch j s).spawned = s.spawned ∧
        ((∃ m, (afterFetch j s).writes = s.writes ++ [processingRecord, errorRecord m] ∧
            (afterFetch j s).store = some (errorRecord m)) ∨
         (∃ m, (afterFetch j s).writes = s.writes ++ [errorRecord m] ∧
            (afterFetch j s).store = some (errorRecord m)) ∨
         (∃ m, (afterFetch j s).writes = s.writes ++ [completedRecord, errorRecord m] ∧
            (afterFetch j s).store = some (errorRecord m)) ∨
         ((afterFetch j s).writes = s.writes ++ [completedRecord] ∧
            (afterFetch j s).store = some completedRecord)))) := by
  cases hu : j.useTimestamps.truthy with
  | true =>
    cases hex : existsSync s.files j.tempFile with
    | false =>
      rw [afterFetch_missing j s hu hex]
      obtain ⟨h1, h2, -, h4, h5, a, b, c, d⟩ := onFailure_spec j (s.setProgress processingRecord)
        [.lit "Input file not found"]
      refine ⟨a, b, d, Or.inr ⟨h5, c, by simpa using h4, Or.inl ⟨_, ?_, h2⟩⟩⟩
      rw [h1]; simp
    | true =>
      rw [afterFetch_trim j s hu hex]
      refine ⟨rfl, rfl, rfl, Or.inl ⟨rfl, rfl, rfl, ?_, rfl, ?_, ?_⟩⟩ <;>
        simp [State.setProgress, State.emit, State.writes, State.responses, State.spawned,
          List.filterMap_append]
  | false =>
    cases hr : renameSync s.files j.tempFile j.finalPath with
    | none =>
      rw [afterFetch_noRename j s hu hr]
      obtain ⟨h1, h2, -, h4, h5, a, b, c, d⟩ := onFailure_spec j s
        [.lit ("ENOENT: no such file or directory, rename '" ++ j.tempFile ++
          "' -> '" ++ j.finalPath ++ "'")]
      exact ⟨a, b, d, Or.inr ⟨h5, c, h4, Or.inr (Or.inl ⟨_, h1, h2⟩)⟩⟩
    | some files =>
      rw [afterFetch_rename j s hu files hr]
      obtain ⟨h1, h4, h5, a, b, c, d⟩ :=
        finish_spec j { s.emit (.rename j.tempFile j.finalPath) with files := files }
      have hw : ({ s.emit (.rename j.tempFile j.finalPath) with files := files } : State).writes
          = s.writes := by
        simp [State.emit, State.writes, List.filterMap_append]
      have hsp : ({ s.emit (.rename j.tempFile j.finalPath) with files := files } : State).spawned
          = s.spawned := by
        simp [State.emit, State.spawned, List.filterMap_append]
      refine ⟨a, b, d, Or.inr ⟨h5, c, by rw [h4, hsp], ?_⟩⟩
      rcases h1 with ⟨h1, h2, -⟩ | ⟨m, h1, h2, -⟩
      · exact Or.inr (Or.inr (Or.inr ⟨by rw [h1, hw], h2⟩))
      · exact Or.inr (Or.inr (Or.inl ⟨m, by rw [h1, hw], h2⟩))

/-! ### Classes of progress records -/

theorem min_const_fin {x : JSNum} (a c : ℕ) (hx : x.AtLeast a) (hac : a ≤ c) (hc : c ≤ 2 ^ 53) :
    ∃ v : ℚ, JSNum.min x (.ofNat c) = .fin v ∧ (a : ℚ) ≤ v ∧ v ≤ c := by
  have hacq : (a : ℚ) ≤ c := Nat.cast_le.mpr hac
  rw [ofNat_eq c hc]
  rcases hx with rfl | ⟨v, hv, rfl⟩
  · exact ⟨c, by simp [JSNum.min, JSNum.le], hacq, le_rfl⟩
  · by_cases h : v ≤ (c : ℚ)
    · exact ⟨v, by simp [JSNum.min, JSNum.le, h], hv, h⟩
    · exact ⟨c, by simp [JSNum.min, JSNum.le, h], hacq, le_rfl⟩

theorem JSNum.NonNeg.atLeast_zero {x : JSNum} (hx : x.NonNeg) : x.AtLeast 0 := by
  rcases hx with rfl | ⟨v, hv, rfl⟩
  · exact Or.inl rfl
  · exact Or.inr ⟨v, by simpa using hv, rfl⟩

theorem fetchOnData_isDownload (text : String) (r : ProgressRecord)
    (h : fetchOnData text = some r) : IsDownload r ∧ r.status = "downloading" := by
  unfold fetchOnData at h
  split at h
  · rename_i cap hcap
    obtain ⟨t, ht⟩ := searchFirst_some _ _ _ hcap
    obtain ⟨c, rest, rfl, hc⟩ := fetchMatchHere_digit _ _ ht
    cases h
    obtain ⟨v, hv, h0, h80⟩ := min_const_fin 0 80 (parseFloatChars_digit c rest hc).atLeast_zero
      (by norm_num) (by norm_num)
    exact ⟨⟨rfl, v, hv, by simpa using h0, by simpa using h80⟩, rfl⟩
  · cases h

theorem trimOnData_isTimestamps (text : String) (r : ProgressRecord)
    (h : trimOnData text = some r) : IsTimestamps r ∧ r.status = "processing" := by
  unfold trimOnData at h
  split at h
  · rename_i hh mm ss hcap
    obtain ⟨t, ht⟩ := searchFirst_some _ _ _ hcap
    obtain ⟨h1, h2, c, rest, rfl, hc⟩ := trimMatchHere_shape _ _ _ _ ht
    cases h
    have htotal : (((parseIntChars hh).mul (.ofNat 3600)).add
        ((parseIntChars mm).mul (.ofNat 60))).add (parseFloatChars (c :: rest)) |>.NonNeg :=
      JSNum.NonNeg.add (JSNum.NonNeg.add (JSNum.NonNeg.mul_const (parseIntChars_nonNeg _ h1) 3600
        (by norm_num) (by norm_num)) (JSNum.NonNeg.mul_const (parseIntChars_nonNeg _ h2) 60
        (by norm_num) (by norm_num))) (parseFloatChars_digit c rest hc)
    have hscaled := JSNum.NonNeg.mul_const (JSNum.NonNeg.div_const htotal 30 (by norm_num)
      (by norm_num)) 20 (by norm_num) (by norm_num)
    obtain ⟨v, hv, h80, h99⟩ := min_const_fin 80 99 (atLeast_const_add 80 (by norm_num) hscaled)
      (by norm_num) (by norm_num)
    exact ⟨⟨rfl, v, hv, by simpa using h80, by simpa using h99⟩, rfl⟩
  · cases h

theorem initialRecord_isDownload : IsDownload initialRecord :=
  ⟨rfl, 5, ofNat_eq 5 (by norm_num), by norm_num, by norm_num⟩

theorem processingRecord_isTimestamps : IsTimestamps processingRecord :=
  ⟨rfl, 80, ofNat_eq 80 (by norm_num), by norm_num, by norm_num⟩

theorem completedRecord_isComplete : IsComplete completedRecord :=
  ⟨rfl, ofNat_eq 100 (by norm_num)⟩

theorem errorRecord_isError (m : Text) : IsError (errorRecord m) :=
  ⟨rfl, ofNat_eq 0 (by norm_num)⟩

theorem replaces_error (p : ProgressRecord) {r : ProgressRecord} (hr : IsError r) :
    Replaces p r := fun h => absurd hr.1 h

theorem replaces_sameStage {p r : ProgressRecord} (h : p.stage = r.stage) : Replaces p r :=
  fun _ => Or.inr h

theorem replaces_of_le {p r : ProgressRecord} {a b : ℚ} (hp : p.percent = .fin a)
    (hr : r.percent = .fin b) (h : a ≤ b) : Replaces p r := by
  intro _; left; rw [hp, hr]; simpa [JSNum.le] using h

theorem replaces_download {p r : ProgressRecord} (hp : IsDownload p ∨ IsError p)
    (hr : IsDownload r) : Replaces p r := by
  rcases hp with hp | hp
  · exact replaces_sameStage (hp.1.trans hr.1.symm)
  · obtain ⟨-, v, hv, h0, -⟩ := hr
    exact replaces_of_le hp.2 hv h0

theorem replaces_timestamps {p r : ProgressRecord}
    (hp : IsDownload p ∨ IsTimestamps p ∨ IsError p) (hr : IsTimestamps r) : Replaces p r := by
  obtain ⟨hs, v, hv, h80, -⟩ := hr
  rcases hp with hp | hp | hp
  · obtain ⟨-, w, hw, -, hw80⟩ := hp
    exact replaces_of_le hw hv (le_trans hw80 h80)
  · exact replaces_sameStage (hp.1.trans hs.symm)
  · exact replaces_of_le hp.2 hv (le_trans (by norm_num) h80)

theorem replaces_complete {p r : ProgressRecord}
    (hp : IsDownload p ∨ IsTimestamps p ∨ IsComplete p ∨ IsError p) (hr : IsComplete r) :
    Replaces p r := by
  rcases hp with hp | hp | hp | hp
  · obtain ⟨-, w, hw, -, hw80⟩ := hp
    exact replaces_of_le hw hr.2 (le_trans hw80 (by norm_num))
  · obtain ⟨-, w, hw, -, hw99⟩ := hp
    exact replaces_of_le hw hr.2 (le_trans hw99 (by norm_num))
  · exact replaces_sameStage (hp.1.trans hr.1.symm)
  · exact replaces_of_le hp.2 hr.2 (by norm_num)

theorem chain_snoc {R : ProgressRecord → ProgressRecord → Prop} {ws : List ProgressRecord}
    {r : ProgressRecord} (h : List.Chain' R ws) (hr : ∀ p ∈ ws.getLast?, R p r) :
    List.Chain' R (ws ++ [r]) := by
  rw [List.chain'_append]
  exact ⟨h, List.chain'_singleton r, fun x hx y hy => by
    simp only [List.head?_cons, Option.mem_def, Option.some.injEq] at hy
    subst hy; exact hr x hx⟩

theorem getLast_snoc (ws : List ProgressRecord) (r p : ProgressRecord)
    (h : p ∈ (ws ++ [r]).getLast?) : p = r := by
  simpa [eq_comm] using h

/-! ### The invariant -/

theorem inv_silent {s t : State} (hi : Inv s) (hw : t.writes = s.writes)
    (hst : t.store = s.store ∨ t.store = none) (hph : t.phase = s.phase)
    (hfs : t.fetchSpawned = s.fetchSpawned) (hts : t.trimSpawned = s.trimSpawned)
    (hfc : s.fetchClosed = true → t.fetchClosed = true)
    (htc : s.trimClosed = true → t.trimClosed = true) : Inv t := by
  have hfc2 : t.fetchClosed = false → s.fetchClosed = false := by
    intro h; cases hs : s.fetchClosed
    · rfl
    · rw [hfc hs] at h; cases h
  have htc2 : t.trimClosed = false → s.trimClosed = false := by
    intro h; cases hs : s.trimClosed
    · rfl
    · rw [htc hs] at h; cases h
  have hstore : ∀ r, t.store = some r → s.store = some r := by
    intro r hr
    rcases hst with h | h
    · rw [← h]; exact hr
    · rw [h] at hr; cases hr
  constructor
  · intro h; rw [hts] at h; exact hfc (hi.trimAfterFetch h)
  · intro h; rw [hph] at h; rw [hts]; exact hi.fetchPhase h
  · intro r hr ht; rw [hph]; exact hi.terminalDone r (hstore r hr) ht
  · intro r hr hc
    obtain ⟨q1, q2, q3⟩ := hi.completedQuiet r (hstore r hr) hc
    exact ⟨by rw [hph]; exact q1, fun h => hfc (q2 (by rw [← hfs]; exact h)),
      fun h => htc (q3 (by rw [← hts]; exact h))⟩
  · intro h; rw [hw]; exact hi.lastFetch (hfc2 h)
  · intro h1 h2; rw [hw]; exact hi.lastTrim (by rw [← hts]; exact h1) (htc2 h2)
  · rw [hw]; exact hi.lastAny
  · rw [hw]; exact hi.chain

theorem inv_fetchData {s : State} {r : ProgressRecord} (hi : Inv s) (hc : s.fetchClosed = false)
    (hr : IsDownload r) (hs : r.status = "downloading") : Inv (s.setProgress r) := by
  have hterm : ¬ Terminal r := by
    rintro (h | h) <;> rw [hs] at h <;> exact absurd h (by decide)
  constructor
  · exact hi.trimAfterFetch
  · exact hi.fetchPhase
  · intro r2 h2 ht
    simp only [State.setProgress, Option.some.injEq] at h2
    subst h2; exact absurd ht hterm
  · intro r2 h2 hcomp
    simp only [State.setProgress, Option.some.injEq] at h2
    subst h2; exact absurd (Or.inl hcomp) hterm
  · intro _ p hp
    rw [writes_setProgress] at hp
    rw [getLast_snoc _ _ _ hp]; exact Or.inl hr
  · intro h1 _
    have := hi.trimAfterFetch h1
    simp only [State.setProgress] at this
    rw [hc] at this; cases this
  · intro p hp
    rw [writes_setProgress] at hp
    rw [getLast_snoc _ _ _ hp]; exact Or.inl hr
  · rw [writes_setProgress]
    exact chain_snoc hi.chain (fun p hp => replaces_download (hi.lastFetch hc p hp) hr)

theorem inv_trimData {s : State} {r : ProgressRecord} (hi : Inv s) (hsp : s.trimSpawned = true)
    (hc : s.trimClosed = false) (hr : IsTimestamps r) (hs : r.status = "processing") :
    Inv (s.setProgress r) := by
  have hterm : ¬ Terminal r := by
    rintro (h | h) <;> rw [hs] at h <;> exact absurd h (by decide)
  constructor
  · exact hi.trimAfterFetch
  · exact hi.fetchPhase
  · intro r2 h2 ht
    simp only [State.setProgress, Option.some.injEq] at h2
    subst h2; exact absurd ht hterm
  · intro r2 h2 hcomp
    simp only [State.setProgress, Option.some.injEq] at h2
    subst h2; exact absurd (Or.inl hcomp) hterm
  · intro h
    have := hi.trimAfterFetch hsp
    simp only [State.setProgress] at h
    rw [h] at this; cases this
  · intro _ _ p hp
    rw [writes_setProgress] at hp
    rw [getLast_snoc _ _ _ hp]; exact Or.inl hr
  · intro p hp
    rw [writes_setProgress] at hp
    rw [getLast_snoc _ _ _ hp]; exact Or.inr (Or.inl hr)
  · rw [writes_setProgress]
    refine chain_snoc hi.chain (fun p hp => replaces_timestamps ?_ hr)
    rcases hi.lastTrim hsp hc p hp with h | h
    · exact Or.inr (Or.inl h)
    · exact Or.inr (Or.inr h)

theorem inv_onFailure (j : Job) {s : State} (m : Text) (hi : Inv s) : Inv (onFailure j s m) := by
  obtain ⟨hw, hst, -, -, hph, hfs, hfc, hts, htc⟩ := onFailure_spec j s m
  have hne : (errorRecord m).status ≠ "completed" := by
    show ("error" : String) ≠ "completed"
    decide
  constructor
  · rw [hts, hfc]; exact hi.trimAfterFetch
  · intro h; rw [hph] at h; cases h
  · intro _ _ _; exact hph
  · intro r hr hc
    rw [hst] at hr; cases hr; exact absurd hc hne
  · intro _ p hp
    rw [hw] at hp; rw [getLast_snoc _ _ _ hp]; exact Or.inr (errorRecord_isError m)
  · intro _ _ p hp
    rw [hw] at hp; rw [getLast_snoc _ _ _ hp]; exact Or.inr (errorRecord_isError m)
  · intro p hp
    rw [hw] at hp; rw [getLast_snoc _ _ _ hp]
    exact Or.inr (Or.inr (Or.inr (errorRecord_isError m)))
  · rw [hw]
    exact chain_snoc hi.chain (fun p _ => replaces_error p (errorRecord_isError m))

theorem getLast_snoc2 (ws : List ProgressRecord) (a r p : ProgressRecord)
    (h : p ∈ (ws ++ [a, r]).getLast?) : p = r := by
  have : ws ++ [a, r] = (ws ++ [a]) ++ [r] := by simp
  rw [this] at h
  exact getLast_snoc _ _ _ h

theorem chain_snoc2 {R : ProgressRecord → ProgressRecord → Prop} {ws : List ProgressRecord}
    {a r : ProgressRecord} (h : List.Chain' R ws) (ha : ∀ p ∈ ws.getLast?, R p a) (hr : R a r) :
    List.Chain' R (ws ++ [a, r]) := by
  have : ws ++ [a, r] = (ws ++ [a]) ++ [r] := by simp
  rw [this]
  exact chain_snoc (chain_snoc h ha) (fun p hp => by rw [getLast_snoc _ _ _ hp]; exact hr)

/-- The invariant after a step that ends the handler: the records `ws` are
written, the last of them `r` is in the store, and no tool is left running. -/
theorem inv_ending {s t : State} {ws : List ProgressRecord} {r : ProgressRecord}
    (hw : t.writes = s.writes ++ ws) (hlast : ∀ p ∈ (s.writes ++ ws).getLast?, p = r)
    (hclass : IsComplete r ∨ IsError r)
    (hchain : List.Chain' Replaces (s.writes ++ ws))
    (hph : t.phase = .done) (hq : Quiet t) (hfc : t.fetchClosed = true)
    (htr : t.trimSpawned = true → t.trimClosed = true) : Inv t := by
  constructor
  · intro _; exact hfc
  · intro h; rw [hph] at h; cases h
  · intro _ _ _; exact hph
  · intro _ _ _; exact hq
  · intro h; rw [hfc] at h; cases h
  · intro h1 h2; rw [htr h1] at h2; cases h2
  · intro p hp
    rw [hw] at hp; rw [hlast p hp]
    rcases hclass with h | h
    · exact Or.inr (Or.inr (Or.inl h))
    · exact Or.inr (Or.inr (Or.inr h))
  · rw [hw]; exact hchain

theorem inv_afterFetch (j : Job) {s : State} (hi : Inv s) (hph : s.phase = .awaitFetch)
    (hfc : s.fetchClosed = true)
    (hl : ∀ p ∈ s.writes.getLast?, IsDownload p ∨ IsError p) : Inv (afterFetch j s) := by
  have hts : s.trimSpawned = false := hi.fetchPhase hph
  have hl3 : ∀ p ∈ s.writes.getLast?, IsDownload p ∨ IsTimestamps p ∨ IsError p := by
    intro p hp
    rcases hl p hp with h | h
    · exact Or.inl h
    · exact Or.inr (Or.inr h)
  obtain ⟨a, b, c, h⟩ := afterFetch_spec j s
  rcases h with ⟨h1, h2, -, h4, h5, -, -⟩ | ⟨h1, h2, -, h⟩
  · constructor
    · intro _; rw [b]; exact hfc
    · intro h; rw [h1] at h; cases h
    · intro r hr ht
      rw [h5] at hr; cases hr
      rcases ht with ht | ht <;> exact absurd ht (by decide)
    · intro r hr hc
      rw [h5] at hr; cases hr
      exact absurd hc (by decide)
    · intro h; rw [b, hfc] at h; cases h
    · intro _ _ p hp
      rw [h4] at hp; rw [getLast_snoc _ _ _ hp]; exact Or.inl processingRecord_isTimestamps
    · intro p hp
      rw [h4] at hp; rw [getLast_snoc _ _ _ hp]
      exact Or.inr (Or.inl processingRecord_isTimestamps)
    · rw [h4]
      exact chain_snoc hi.chain
        (fun p hp => replaces_timestamps (hl3 p hp) processingRecord_isTimestamps)
  · have hq : Quiet (afterFetch j s) :=
      ⟨h1, fun _ => by rw [b]; exact hfc, fun h => by rw [h2, hts] at h; cases h⟩
    have htr : (afterFetch j s).trimSpawned = true → (afterFetch j s).trimClosed = true :=
      fun h => by rw [h2, hts] at h; cases h
    have hfc2 : (afterFetch j s).fetchClosed = true := by rw [b]; exact hfc
    rcases h with ⟨m, hw, -⟩ | ⟨m, hw, -⟩ | ⟨m, hw, -⟩ | ⟨hw, -⟩
    · exact inv_ending hw (fun p hp => getLast_snoc2 _ _ _ _ hp)
        (Or.inr (errorRecord_isError m))
        (chain_snoc2 hi.chain
          (fun p hp => replaces_timestamps (hl3 p hp) processingRecord_isTimestamps)
          (replaces_error _ (errorRecord_isError m))) h1 hq hfc2 htr
    · exact inv_ending hw (fun p hp => getLast_snoc _ _ _ hp)
        (Or.inr (errorRecord_isError m))
        (chain_snoc hi.chain (fun p _ => replaces_error p (errorRecord_isError m))) h1 hq hfc2 htr
    · exact inv_ending hw (fun p hp => getLast_snoc2 _ _ _ _ hp)
        (Or.inr (errorRecord_isError m))
        (chain_snoc2 hi.chain
          (fun p hp => replaces_complete (hi.lastAny p hp) completedRecord_isComplete)
          (replaces_error _ (errorRecord_isError m))) h1 hq hfc2 htr
    · exact inv_ending hw (fun p hp => getLast_snoc _ _ _ hp)
        (Or.inl completedRecord_isComplete)
        (chain_snoc hi.chain
          (fun p hp => replaces_complete (hi.lastAny p hp) completedRecord_isComplete))
        h1 hq hfc2 htr

theorem inv_finish (j : Job) {s : State} (hi : Inv s) (hfc : s.fetchClosed = true)
    (htc : s.trimSpawned = true → s.trimClosed = true) : Inv (finish j s) := by
  obtain ⟨h, -, hph, a, b, c, d⟩ := finish_spec j s
  have hq : Quiet (finish j s) :=
    ⟨hph, fun _ => by rw [b]; exact hfc, fun h => by rw [d]; rw [c] at h; exact htc h⟩
  have htr : (finish j s).trimSpawned = true → (finish j s).trimClosed = true :=
    fun h => by rw [d]; rw [c] at h; exact htc h
  have hfc2 : (finish j s).fetchClosed = true := by rw [b]; exact hfc
  rcases h with ⟨hw, -⟩ | ⟨m, hw, -⟩
  · exact inv_ending hw (fun p hp => getLast_snoc _ _ _ hp)
      (Or.inl completedRecord_isComplete)
      (chain_snoc hi.chain
        (fun p hp => replaces_complete (hi.lastAny p hp) completedRecord_isComplete))
      hph hq hfc2 htr
  · exact inv_ending hw (fun p hp => getLast_snoc2 _ _ _ _ hp)
      (Or.inr (errorRecord_isError m))
      (chain_snoc2 hi.chain
        (fun p hp => replaces_complete (hi.lastAny p hp) completedRecord_isComplete)
        (replaces_error _ (errorRecord_isError m))) hph hq hfc2 htr

theorem start_noUrl (j : Job) (files : Files) (hu : j.url.truthy = false) :
    (start j files).writes = [] ∧ (start j files).store = none ∧
    (start j files).responses = [(400, .error [.lit "YouTube URL required"] none)] ∧
    (start j files).spawned = [] ∧ (start j files).log
      = [.respond 400 (.error [.lit "YouTube URL required"] none)] ∧
    (start j files).phase = .done ∧
    (start j files).fetchSpawned = false ∧ (start j files).trimSpawned = false := by
  unfold start
  simp [hu, State.emit, State.writes, State.responses, State.spawned]

theorem start_url (j : Job) (files : Files) (hu : j.url.truthy = true) :
    (start j files).writes = [initialRecord, initialRecord] ∧
    (start j files).store = some initialRecord ∧
    (start j files).responses = [] ∧
    (start j files).spawned = ["yt-dlp"] ∧
    (start j files).phase = .awaitFetch ∧
    (start j files).fetchSpawned = true ∧ (start j files).fetchClosed = false ∧
    (start j files).trimSpawned = false ∧ (start j files).files = files ∧
    (start j files).evictionPending = false := by
  unfold start
  simp [hu, State.emit, State.setProgress, State.writes, State.responses, State.spawned]

theorem inv_start (j : Job) (files : Files) : Inv (start j files) := by
  cases hu : j.url.truthy with
  | false =>
    obtain ⟨hw, hst, -, -, -, hph, hfs, hts⟩ := start_noUrl j files hu
    constructor
    · intro h; rw [hts] at h; cases h
    · intro h; rw [hph] at h; cases h
    · intro _ _ _; exact hph
    · intro r hr; rw [hst] at hr; cases hr
    · intro _ p hp; rw [hw] at hp; cases hp
    · intro h; rw [hts] at h; cases h
    · intro p hp; rw [hw] at hp; cases hp
    · rw [hw]; exact List.chain'_nil
  | true =>
    obtain ⟨hw, hst, -, -, hph, hfs, hfc, hts, -⟩ := start_url j files hu
    have hlast : ∀ p ∈ (start j files).writes.getLast?, p = initialRecord := by
      intro p hp; rw [hw] at hp; simpa [eq_comm] using hp
    constructor
    · intro h; rw [hts] at h; cases h
    · intro _; exact hts
    · intro r hr ht
      rw [hst] at hr; cases hr
      rcases ht with ht | ht <;> exact absurd ht (by decide)
    · intro r hr hc
      rw [hst] at hr; cases hr
      exact absurd hc (by decide)
    · intro _ p hp; rw [hlast p hp]; exact Or.inl initialRecord_isDownload
    · intro h; rw [hts] at h; cases h
    · intro p hp; rw [hlast p hp]; exact Or.inl initialRecord_isDownload
    · rw [hw]
      simp only [List.chain'_cons, List.chain'_singleton, and_true]
      exact replaces_sameStage rfl

theorem inv_step (j : Job) {s : State} (e : Event) (hi : Inv s) (he : enabled s e = true) :
    Inv (step j s e) := by
  cases e with
  | fetchStdout text =>
    simp only [enabled, Bool.and_eq_true, Bool.not_eq_true'] at he
    cases h : fetchOnData text with
    | none => simp only [step, h]; exact hi
    | some r =>
      obtain ⟨h1, h2⟩ := fetchOnData_isDownload text r h
      simp only [step, h]
      exact inv_fetchData hi he.2 h1 h2
  | fetchStderr text => exact hi
  | fetchClose code =>
    simp only [enabled, Bool.and_eq_true, Bool.not_eq_true'] at he
    have hi1 : Inv { s with fetchClosed := true } :=
      inv_silent hi rfl (Or.inl rfl) rfl rfl rfl (fun _ => rfl) (fun h => h)
    simp only [step]
    split_ifs with hp hc
    · exact inv_afterFetch j hi1 hp rfl (hi.lastFetch he.2)
    · exact inv_onFailure j _ hi1
    · exact hi1
  | fetchError message =>
    simp only [step]
    split_ifs
    · exact inv_onFailure j _ hi
    · exact hi
  | fetchTimeout =>
    have hi1 : Inv { s with fetchTimerFired := true } :=
      inv_silent hi rfl (Or.inl rfl) rfl rfl rfl (fun h => h) (fun h => h)
    simp only [step]
    split_ifs
    · exact inv_onFailure j _ hi1
    · exact hi1
  | trimStderr text =>
    simp only [enabled, Bool.and_eq_true, Bool.not_eq_true'] at he
    cases h : trimOnData text with
    | none => simp only [step, h]; exact hi
    | some r =>
      obtain ⟨h1, h2⟩ := trimOnData_isTimestamps text r h
      simp only [step, h]
      exact inv_trimData hi he.1 he.2 h1 h2
  | trimClose code =>
    simp only [enabled, Bool.and_eq_true, Bool.not_eq_true'] at he
    have hi1 : Inv { s with trimClosed := true } :=
      inv_silent hi rfl (Or.inl rfl) rfl rfl rfl (fun h => h) (fun _ => rfl)
    have hi2 : Inv { ({ s with trimClosed := true } : State).emit (.unlink j.tempFile) with
        files := removeFile s.files j.tempFile } :=
      inv_silent hi (by simp [State.emit, State.writes, List.filterMap_append]) (Or.inl rfl) rfl
        rfl rfl (fun h => h) (fun _ => rfl)
    have hfc := hi.trimAfterFetch he.1
    simp only [step]
    split_ifs with hc hex hp hp hp
    · exact inv_finish j hi2 hfc (fun _ => rfl)
    · exact hi2
    · exact inv_finish j hi1 hfc (fun _ => rfl)
    · exact hi1
    · exact inv_onFailure j _ hi1
    · exact hi1
  | trimError message =>
    simp only [step]
    split_ifs
    · exact inv_onFailure j _ hi
    · exact hi
  | trimTimeout =>
    have hi1 : Inv { s with trimTimerFired := true } :=
      inv_silent hi rfl (Or.inl rfl) rfl rfl rfl (fun h => h) (fun h => h)
    simp only [step]
    split_ifs
    · exact inv_onFailure j _ hi1
    · exact hi1
  | evictionTimer =>
    exact inv_silent hi (by simp [step, State.emit, State.writes, List.filterMap_append])
      (Or.inr rfl) rfl rfl rfl (fun h => h) (fun h => h)
  | fileWritten path size =>
    exact inv_silent hi rfl (Or.inl rfl) rfl rfl rfl (fun h => h) (fun h => h)
  | fileRemoved path =>
    exact inv_silent hi rfl (Or.inl rfl) rfl rfl rfl (fun h => h) (fun h => h)

theorem admissible_append (j : Job) (s : State) (es es2 : List Event) :
    admissible j s (es ++ es2) = true ↔
      admissible j s es = true ∧ admissible j (run j s es) es2 = true := by
  induction es generalizing s with
  | nil => simp [admissible, run]
  | cons e es ih =>
    have := ih (step j s e)
    simp only [run] at this
    show (enabled s e && admissible j (step j s e) (es ++ es2)) = true ↔ _
    simp only [admissible, Bool.and_eq_true, run, List.foldl_cons, this, and_assoc]

theorem run_append (j : Job) (s : State) (es es2 : List Event) :
    run j s (es ++ es2) = run j (run j s es) es2 := by
  simp [run, List.foldl_append]

theorem inv_run (j : Job) {s : State} (es : List Event) (hi : Inv s)
    (ha : admissible j s es = true) : Inv (run j s es) := by
  induction es generalizing s with
  | nil => exact hi
  | cons e es ih =>
    simp only [admissible, Bool.and_eq_true] at ha
    exact ih (inv_step j e hi ha.1) ha.2

/-! ### Quiet states -/

theorem quiet_step (j : Job) {s : State} (e : Event) (hq : Quiet s) (he : enabled s e = true) :
    Quiet (step j s e) ∧
      ((step j s e).store = s.store ∨ (e = .evictionTimer ∧ (step j s e).store = none)) := by
  obtain ⟨hph, hf, ht⟩ := hq
  have hnf : s.phase ≠ .awaitFetch := by rw [hph]; decide
  have hnt : s.phase ≠ .awaitTrim := by rw [hph]; decide
  cases e with
  | fetchStdout text =>
    simp only [enabled, Bool.and_eq_true, Bool.not_eq_true'] at he
    rw [hf he.1] at he; exact absurd he.2 (by decide)
  | fetchStderr text => exact ⟨⟨hph, hf, ht⟩, Or.inl rfl⟩
  | fetchClose code =>
    simp only [enabled, Bool.and_eq_true, Bool.not_eq_true'] at he
    rw [hf he.1] at he; exact absurd he.2 (by decide)
  | fetchError message =>
    simp only [step, if_neg hnf]
    exact ⟨⟨hph, hf, ht⟩, Or.inl trivial⟩
  | fetchTimeout =>
    simp only [step, if_neg hnf]
    exact ⟨⟨hph, hf, ht⟩, Or.inl trivial⟩
  | trimStderr text =>
    simp only [enabled, Bool.and_eq_true, Bool.not_eq_true'] at he
    rw [ht he.1] at he; exact absurd he.2 (by decide)
  | trimClose code =>
    simp only [enabled, Bool.and_eq_true, Bool.not_eq_true'] at he
    rw [ht he.1] at he; exact absurd he.2 (by decide)
  | trimError message =>
    simp only [step, if_neg hnt]
    exact ⟨⟨hph, hf, ht⟩, Or.inl trivial⟩
  | trimTimeout =>
    simp only [step, if_neg hnt]
    exact ⟨⟨hph, hf, ht⟩, Or.inl trivial⟩
  | evictionTimer => exact ⟨⟨hph, hf, ht⟩, Or.inr ⟨rfl, rfl⟩⟩
  | fileWritten path size => exact ⟨⟨hph, hf, ht⟩, Or.inl rfl⟩
  | fileRemoved path => exact ⟨⟨hph, hf, ht⟩, Or.inl rfl⟩

theorem quiet_run (j : Job) {s : State} (es : List Event) (hq : Quiet s)
    (ha : admissible j s es = true) :
    Quiet (run j s es) ∧ ((run j s es).store = s.store ∨ (run j s es).store = none) ∧
      (Event.evictionTimer ∉ es → (run j s es).store = s.store) := by
  induction es generalizing s with
  | nil => exact ⟨hq, Or.inl rfl, fun _ => rfl⟩
  | cons e es ih =>
    simp only [admissible, Bool.and_eq_true] at ha
    obtain ⟨hq1, hs1⟩ := quiet_step j e hq ha.1
    obtain ⟨hq2, hs2, hs3⟩ := ih hq1 ha.2
    refine ⟨hq2, ?_, ?_⟩
    · show (run j (step j s e) es).store = s.store ∨ (run j (step j s e) es).store = none
      rcases hs2 with h | h
      · rcases hs1 with h1 | ⟨-, h1⟩
        · exact Or.inl (h.trans h1)
        · exact Or.inr (h.trans h1)
      · exact Or.inr h
    · intro hne
      show (run j (step j s e) es).store = s.store
      rw [hs3 (fun h => hne (List.mem_cons_of_mem _ h))]
      rcases hs1 with h1 | ⟨h1, -⟩
      · exact h1
      · exact absurd (h1 ▸ List.mem_cons_self _ _) hne

/-! ### Claims on the progress record of a job -/

/-- C5 (amended): along every sequence of events a job can meet, each record
it writes to the progress store either is an error record, or has a percent
greater than or equal to the percent of the record it replaces, or belongs to
the same stage (download, timestamps) as the record it replaces.  Within a
stage the percent follows the latest chunk of tool output and can decrease. -/
theorem C5_percent_monotone_across_stages (j : Job) (files : Files) (es : List Event)
    (ha : admissible j (start j files) es = true) :
    List.Chain' Replaces (run j (start j files) es).writes :=
  (inv_run j es (inv_start j files) ha).chain

/-- C6 (amended): along every sequence of events a job can meet, once its
progress record has status `completed`, or has status `error` while no tool
process of the job is still running, every later event leaves that record in
place or evicts it. -/
theorem C6_terminal_absorbing (j : Job) (files : Files) (es later : List Event)
    (ha : admissible j (start j files) (es ++ later) = true) (r : ProgressRecord)
    (hr : (run j (start j files) es).store = some r)
    (ht : r.status = "completed" ∨ (r.status = "error" ∧
      ((run j (start j files) es).fetchSpawned = true →
        (run j (start j files) es).fetchClosed = true) ∧
      ((run j (start j files) es).trimSpawned = true →
        (run j (start j files) es).trimClosed = true))) :
    (run j (start j files) (es ++ later)).store = some r ∨
      (run j (start j files) (es ++ later)).store = none := by
  rw [admissible_append] at ha
  have hi := inv_run j es (inv_start j files) ha.1
  have hq : Quiet (run j (start j files) es) := by
    rcases ht with h | ⟨h, hf, htr⟩
    · exact hi.completedQuiet r hr h
    · exact ⟨hi.terminalDone r hr (Or.inr h), hf, htr⟩
  rw [run_append, ← hr]
  exact (quiet_run j later hq ha.2).2.1

/-- Witness of C5: a fetch at 45.3%, a successful exit, a trim chunk. -/
theorem C5_percent_monotone_across_stages_witness :
    admissible exampleJob (start exampleJob exampleFiles)
        [.fetchStdout "[download]  45.3% of 3.00MiB", .fileWritten exampleJob.tempFile 3145728,
          .fetchClose (some 0), .trimStderr "frame=  360 time=00:00:15.00 bitrate=1000kbits/s"]
        = true ∧
      List.Chain' Replaces (run exampleJob (start exampleJob exampleFiles)
        [.fetchStdout "[download]  45.3% of 3.00MiB", .fileWritten exampleJob.tempFile 3145728,
          .fetchClose (some 0),
          .trimStderr "frame=  360 time=00:00:15.00 bitrate=1000kbits/s"]).writes :=
  ⟨by decide!, C5_percent_monotone_across_stages exampleJob exampleFiles _ (by decide!)⟩

/-- C5 as stated fails: after the initial record with percent 5, the first
chunk of fetch output, at 0.0%, makes the job write a `downloading` record with
percent 0. -/
theorem C5_counterexample :
    admissible exampleJob (start exampleJob exampleFiles)
        [.fetchStdout "[download]   0.0% of 3.00MiB at Unknown speed"] = true ∧
      (run exampleJob (start exampleJob exampleFiles)
        [.fetchStdout "[download]   0.0% of 3.00MiB at Unknown speed"]).writes.map
          (fun r => (r.percent, r.status))
        = [(.fin 5, "downloading"), (.fin 5, "downloading"), (.fin 0, "downloading")] ∧
      ¬ MonotonePercent (run exampleJob (start exampleJob exampleFiles)
        [.fetchStdout "[download]   0.0% of 3.00MiB at Unknown speed"]).writes := by
  decide!

/-- Witness of C6: the fetch tool exits with code 1, then its timer fires and
the record is evicted. -/
theorem C6_terminal_absorbing_witness :
    (run exampleJob (start exampleJob exampleFiles) [.fetchClose (some 1)]).store
        = some (errorRecord [.lit "Video download failed"]) ∧
      ((run exampleJob (start exampleJob exampleFiles)
          ([.fetchClose (some 1)] ++ [.fetchTimeout, .evictionTimer])).store
          = some (errorRecord [.lit "Video download failed"]) ∨
        (run exampleJob (start exampleJob exampleFiles)
          ([.fetchClose (some 1)] ++ [.fetchTimeout, .evictionTimer])).store = none) :=
  ⟨by decide!, C6_terminal_absorbing exampleJob exampleFiles [.fetchClose (some 1)]
    [.fetchTimeout, .evictionTimer] (by decide!) _ (by decide!)
    (Or.inr ⟨by decide!, by decide!, by decide!⟩)⟩

/-- C6 as stated fails: the fetch timer fires and the job's record becomes an
error record; the fetch tool, still running, then prints a progress line and
the record is replaced by a `downloading` record. -/
theorem C6_counterexample :
    admissible exampleJob (start exampleJob exampleFiles)
        [.fetchTimeout, .fetchStdout "[download]  50.0% of 3.00MiB"] = true ∧
      (run exampleJob (start exampleJob exampleFiles) [.fetchTimeout]).store
        = some (errorRecord [.lit "Download timeout"]) ∧
      ((run exampleJob (start exampleJob exampleFiles)
        [.fetchTimeout, .fetchStdout "[download]  50.0% of 3.00MiB"]).store.map
          (fun r => (r.percent, r.status)))
        = some (.fin 50, "downloading") := by
  decide!

/-! ### The fetch stage -/

theorem fetching_step (j : Job) {s : State} (e : Event) (hf : Fetching s)
    (he : e.isFetchOutputOrDisk = true) :
    enabled s e = true ∧ Fetching (step j s e) ∧
      ((step j s e).files = s.files ∨ ∃ p n, e = .fileWritten p n ∨ e = .fileRemoved p) := by
  obtain ⟨h1, h2, h3, h4, h5, h6⟩ := hf
  cases e with
  | fetchStdout text =>
    refine ⟨by simp [enabled, h2, h3], ?_, Or.inl ?_⟩
    · cases h : fetchOnData text with
      | none => simp only [step, h]; exact ⟨h1, h2, h3, h4, h5, h6⟩
      | some r =>
        simp only [step, h]
        exact ⟨h1, h2, h3, h4, by rw [responses_setProgress]; exact h5,
          by rw [spawned_setProgress]; exact h6⟩
    · cases h : fetchOnData text <;> simp [step, h, State.setProgress]
  | fetchStderr text =>
    exact ⟨by simp [enabled, h2, h3], ⟨h1, h2, h3, h4, h5, h6⟩, Or.inl rfl⟩
  | fileWritten path size =>
    exact ⟨rfl, ⟨h1, h2, h3, h4, h5, h6⟩, Or.inr ⟨path, size, Or.inl rfl⟩⟩
  | fileRemoved path =>
    exact ⟨rfl, ⟨h1, h2, h3, h4, h5, h6⟩, Or.inr ⟨path, 0, Or.inr rfl⟩⟩
  | fetchClose _ => cases he
  | fetchError _ => cases he
  | fetchTimeout => cases he
  | trimStderr _ => cases he
  | trimClose _ => cases he
  | trimError _ => cases he
  | trimTimeout => cases he
  | evictionTimer => cases he

theorem fetching_run (j : Job) {s : State} (pre : List Event) (hf : Fetching s)
    (hpre : ∀ e ∈ pre, e.isFetchOutputOrDisk = true) :
    admissible j s pre = true ∧ Fetching (run j s pre) := by
  induction pre generalizing s with
  | nil => exact ⟨rfl, hf⟩
  | cons e es ih =>
    obtain ⟨h1, h2, -⟩ := fetching_step j e hf (hpre e (List.mem_cons_self _ _))
    obtain ⟨h3, h4⟩ := ih h2 (fun x hx => hpre x (List.mem_cons_of_mem _ hx))
    exact ⟨by simp only [admissible, h1, h3, Bool.and_self], h4⟩

theorem fetching_start (j : Job) (files : Files) (hu : j.url.truthy = true) :
    Fetching (start j files) := by
  obtain ⟨-, -, h3, h4, h5, h6, h7, h8, -⟩ := start_url j files hu
  exact ⟨h5, h6, h7, h8, h3, h4⟩

theorem step_fetchClose_fail (j : Job) {s : State} (code : Option Int) (hf : Fetching s)
    (hc : code ≠ some 0) :
    step j s (.fetchClose code)
      = onFailure j { s with fetchClosed := true } [.lit "Video download failed"] := by
  simp only [step, hf.1, if_true, if_neg hc]

theorem step_fetchClose_ok (j : Job) {s : State} (hf : Fetching s) :
    step j s (.fetchClose (some 0)) = afterFetch j { s with fetchClosed := true } := by
  simp only [step, hf.1, if_true]

/-- C7 (amended): the handler checks no timestamp before it launches.  For
every download request with a url present, whatever `startTime` and `endTime`
are, it launches the fetch tool and has answered nothing when it suspends; the
only request refused before any launch is one without a url, answered 400. -/
theorem C7_no_timestamp_validation (ctx : Ctx) (req : DownloadRequest) (files : Files) :
    ((JSVal.ofOption req.url).truthy = true →
      (start (mkJob ctx req files) files).spawned = ["yt-dlp"] ∧
      (start (mkJob ctx req files) files).responses = [] ∧
      (start (mkJob ctx req files) files).phase = .awaitFetch) ∧
    ((JSVal.ofOption req.url).truthy = false →
      (start (mkJob ctx req files) files).spawned = [] ∧
      (start (mkJob ctx req files) files).responses
        = [(400, .error [.lit "YouTube URL required"] none)]) := by
  constructor
  · intro hu
    obtain ⟨-, -, h3, h4, h5, -⟩ := start_url (mkJob ctx req files) files hu
    exact ⟨h4, h3, h5⟩
  · intro hu
    obtain ⟨-, -, h3, h4, -⟩ := start_noUrl (mkJob ctx req files) files hu
    exact ⟨h4, h3⟩

/-- Witness of C7: the example request, whose start time is `abc`, and the
same request without its url. -/
theorem C7_no_timestamp_validation_witness :
    ((start (mkJob exampleCtx exampleRequest exampleFiles) exampleFiles).spawned = ["yt-dlp"] ∧
      (start (mkJob exampleCtx exampleRequest exampleFiles) exampleFiles).responses = [] ∧
      (start (mkJob exampleCtx exampleRequest exampleFiles) exampleFiles).phase = .awaitFetch) ∧
    ((start (mkJob exampleCtx { exampleRequest with url := none } exampleFiles)
        exampleFiles).spawned = [] ∧
      (start (mkJob exampleCtx { exampleRequest with url := none } exampleFiles)
        exampleFiles).responses = [(400, .error [.lit "YouTube URL required"] none)]) :=
  ⟨(C7_no_timestamp_validation exampleCtx exampleRequest exampleFiles).1 (by decide),
    (C7_no_timestamp_validation exampleCtx { exampleRequest with url := none } exampleFiles).2
      (by decide)⟩

/-- C7 as stated fails: the start time `abc` has no numeric component
(`timeToSeconds` gives NaN), yet the handler launches the fetch tool without
answering, and, once the fetch has succeeded, launches the trim tool with
`-ss abc` and a NaN duration. -/
theorem C7_counterexample :
    exampleRequest.url = some "https://youtu.be/x" ∧ exampleRequest.startTime = some "abc" ∧
    timeToSeconds "abc" = .nan ∧
    (start exampleJob exampleFiles).spawned = ["yt-dlp"] ∧
    (start exampleJob exampleFiles).responses = [] ∧
    (run exampleJob (start exampleJob exampleFiles)
      [.fileWritten exampleJob.tempFile 3145728, .fetchClose (some 0)]).spawned
      = ["yt-dlp", "./ffmpeg"] ∧
    (run exampleJob (start exampleJob exampleFiles)
      [.fileWritten exampleJob.tempFile 3145728, .fetchClose (some 0)]).responses = [] ∧
    Action.spawn "./ffmpeg" [[.lit "-i"], [.lit "/app/downloads/temp_1700000000001.mp4"],
        [.lit "-ss"], [.lit "abc"], [.lit "-t"], [.num .nan], [.lit "-c"], [.lit "copy"],
        [.lit "-y"], [.lit "/app/downloads/clip_1700000000001.mp4"]]
      ∈ (run exampleJob (start exampleJob exampleFiles)
        [.fileWritten exampleJob.tempFile 3145728, .fetchClose (some 0)]).log := by
  decide!

/-! ### Failure and degraded delivery -/

theorem existsSync_statSize (files : Files) (p : String) (h : existsSync files p = true) :
    ∃ n, statSize files p = some n := by
  unfold existsSync at h
  unfold statSize
  induction files with
  | nil => simp at h
  | cons f fs ih =>
    by_cases hf : f.1 = p
    · exact ⟨f.2, by simp [List.find?, hf]⟩
    · have h2 : fs.any (fun f => decide (f.1 = p)) = true := by
        simpa [List.any_cons, hf] using h
      obtain ⟨n, hn⟩ := ih h2
      exact ⟨n, by simpa [List.find?, hf] using hn⟩

theorem statSize_writeFile (files : Files) (p : String) (n : Nat) :
    statSize (writeFile files p n) p = some n := by
  simp [statSize, writeFile, List.find?]

theorem onFailure_log_mem (j : Job) (s : State) (m : Text) (a : Action) (h : a ∈ s.log) :
    a ∈ (onFailure j s m).log := by
  unfold onFailure
  simp only [State.setProgress, State.emit]
  split_ifs <;> simp [h]

theorem finish_log_mem (j : Job) (s : State) (a : Action) (h : a ∈ s.log) :
    a ∈ (finish j s).log := by
  unfold finish
  simp only []
  split
  · exact onFailure_log_mem j _ _ a (by simp [State.setProgress, h])
  · simp [State.setProgress, State.emit, h]

theorem mkJob_url (ctx : Ctx) (req : DownloadRequest) (files : Files) :
    (mkJob ctx req files).url = JSVal.ofOption req.url := rfl

theorem mkJob_useTimestamps_missing (ctx : Ctx) (req : DownloadRequest) (files : Files)
    (hreq : (JSVal.ofOption req.startTime).truthy = true ∨
      (JSVal.ofOption req.endTime).truthy = true)
    (htool : existsSync files ffmpegPath = false) :
    (mkJob ctx req files).useTimestamps = .bool false := by
  have hor : ((JSVal.ofOption req.startTime).or (JSVal.ofOption req.endTime)).truthy = true := by
    unfold JSVal.or
    cases hs : (JSVal.ofOption req.startTime).truthy with
    | true => simp [hs]
    | false =>
      rcases hreq with h | h
      · rw [hs] at h; cases h
      · simp [h]
  show ((JSVal.ofOption req.startTime).or (JSVal.ofOption req.endTime)).and
    (.bool (existsSync files ffmpegPath)) = .bool false
  unfold JSVal.and
  rw [if_pos hor, htool]

theorem errorRecord_eq (m : Text) :
    errorRecord m
      = { percent := .fin 0, status := "error", stage := some "error", message := m } := by
  unfold errorRecord
  rw [ofNat_eq 0 (by norm_num)]
  simp

theorem completedRecord_eq :
    completedRecord
      = { percent := .fin 100, status := "completed", stage := some "complete",
          message := [.lit "Download ready!"] } := by
  unfold completedRecord
  rw [ofNat_eq 100 (by norm_num)]
  simp

/-- C8 (amended): for every download request with a url present, if the
fetch tool exits with a non-zero code (or is ended by a signal) and that exit
is the first event to fail the fetch stage, only output of the tool and changes
of the disk coming before it, then the handler answers 500 with a body
`{error, downloadId}` whose error text is `Download failed: ` followed by the
failure message, the progress store holds
`{percent: 0, status: 'error', stage: 'error', message}` with the same message,
and `GET /api/progress/:id` answers with status `error` from then until the
eviction timer fires. -/
theorem C8_fetch_failure_on_both_channels (ctx : Ctx) (req : DownloadRequest) (files : Files)
    (pre : List Event) (code : Option Int)
    (hurl : (JSVal.ofOption req.url).truthy = true)
    (hpre : ∀ e ∈ pre, e.isFetchOutputOrDisk = true) (hcode : code ≠ some 0) :
    admissible (mkJob ctx req files) (start (mkJob ctx req files) files)
      (pre ++ [.fetchClose code]) = true ∧
    (run (mkJob ctx req files) (start (mkJob ctx req files) files)
      (pre ++ [.fetchClose code])).responses
      = [(500, .error [.lit "Download failed: ", .lit "Video download failed"]
          (some (mkJob ctx req files).downloadId))] ∧
    (run (mkJob ctx req files) (start (mkJob ctx req files) files)
      (pre ++ [.fetchClose code])).store
      = some { percent := .fin 0, status := "error", stage := some "error",
               message := [.lit "Video download failed"] } ∧
    (run (mkJob ctx req files) (start (mkJob ctx req files) files)
      (pre ++ [.fetchClose code])).spawned = ["yt-dlp"] ∧
    ∀ later : List Event,
      admissible (mkJob ctx req files) (run (mkJob ctx req files)
        (start (mkJob ctx req files) files) (pre ++ [.fetchClose code])) later = true →
      Event.evictionTimer ∉ later →
      (getProgress (run (mkJob ctx req files) (run (mkJob ctx req files)
        (start (mkJob ctx req files) files) (pre ++ [.fetchClose code])) later).store).status
        = "error" := by
  set j := mkJob ctx req files with hj
  obtain ⟨ha, hf⟩ := fetching_run j pre (fetching_start j files hurl) hpre
  have hstep : run j (start j files) (pre ++ [.fetchClose code])
      = onFailure j { run j (start j files) pre with fetchClosed := true }
          [.lit "Video download failed"] := by
    rw [run_append]
    show step j (run j (start j files) pre) (.fetchClose code) = _
    exact step_fetchClose_fail j code hf hcode
  obtain ⟨-, h2, h3, h4, h5, a, b, c, d⟩ := onFailure_spec j
    { run j (start j files) pre with fetchClosed := true } [.lit "Video download failed"]
  obtain ⟨f1, f2, f3, f4, f5, f6⟩ := hf
  have hen : enabled (run j (start j files) pre) (.fetchClose code) = true := by
    simp [enabled, f2, f3]
  rw [hstep]
  refine ⟨?_, ?_, ?_, ?_, ?_⟩
  · rw [admissible_append]
    exact ⟨ha, by simp only [admissible, hen, Bool.and_self]⟩
  · rw [h3]; show (run j (start j files) pre).responses ++ _ = _
    rw [f5]; rfl
  · rw [h2, errorRecord_eq]
  · rw [h4]; exact f6
  · intro later hl hne
    have hq : Quiet (onFailure j { run j (start j files) pre with fetchClosed := true }
        [.lit "Video download failed"]) :=
      ⟨h5, fun _ => b, fun h => by rw [c] at h; rw [f4] at h; cases h⟩
    rw [(quiet_run j later hq hl).2.2 hne, h2]
    rfl

/-- Witness of C8: the example request, a progress line, exit code 1. -/
theorem C8_fetch_failure_on_both_channels_witness :
    (run (mkJob exampleCtx exampleRequest exampleFiles)
      (start (mkJob exampleCtx exampleRequest exampleFiles) exampleFiles)
      ([.fetchStdout "[download]  45.3% of 3.00MiB"] ++ [.fetchClose (some 1)])).responses
      = [(500, .error [.lit "Download failed: ", .lit "Video download failed"]
          (some "1700000000000"))] ∧
    (run (mkJob exampleCtx exampleRequest exampleFiles)
      (start (mkJob exampleCtx exampleRequest exampleFiles) exampleFiles)
      ([.fetchStdout "[download]  45.3% of 3.00MiB"] ++ [.fetchClose (some 1)])).store
      = some { percent := .fin 0, status := "error", stage := some "error",
               message := [.lit "Video download failed"] } :=
  ⟨(C8_fetch_failure_on_both_channels exampleCtx exampleRequest exampleFiles
      [.fetchStdout "[download]  45.3% of 3.00MiB"] (some 1) (by decide) (by decide)
      (by decide)).2.1,
    (C8_fetch_failure_on_both_channels exampleCtx exampleRequest exampleFiles
      [.fetchStdout "[download]  45.3% of 3.00MiB"] (some 1) (by decide) (by decide)
      (by decide)).2.2.1⟩

/-- C8 as stated fails: the fetch timer fires first, the handler answers 500
with `Download timeout`, the tool, still running, prints a progress line, and
then exits with code 1.  The progress store then holds a `downloading` record,
and the only answer sent carries the timeout, not the exit. -/
theorem C8_counterexample :
    exampleRequest.url = some "https://youtu.be/x" ∧
    admissible exampleJob (start exampleJob exampleFiles)
      [.fetchTimeout, .fetchStdout "[download]  50.0% of 3.00MiB", .fetchClose (some 1)] = true ∧
    (run exampleJob (start exampleJob exampleFiles)
      [.fetchTimeout, .fetchStdout "[download]  50.0% of 3.00MiB",
        .fetchClose (some 1)]).responses
      = [(500, .error [.lit "Download failed: ", .lit "Download timeout"]
          (some "1700000000000"))] ∧
    (run exampleJob (start exampleJob exampleFiles)
      [.fetchTimeout, .fetchStdout "[download]  50.0% of 3.00MiB",
        .fetchClose (some 1)]).store.map (fun r => (r.percent, r.status))
      = some (.fin 50, "downloading") ∧
    (getProgress (run exampleJob (start exampleJob exampleFiles)
      [.fetchTimeout, .fetchStdout "[download]  50.0% of 3.00MiB",
        .fetchClose (some 1)]).store).status ≠ "error" := by
  decide!

theorem existsSync_removeFile (files : Files) (p : String) :
    existsSync (removeFile files p) p = false := by
  simp [existsSync, removeFile]

theorem statSize_cons_eq (fs : Files) (a : String) (b : Nat) :
    statSize ((a, b) :: fs) a = some b := by
  simp [statSize, List.find?_cons]

theorem statSize_cons_ne (fs : Files) (a q : String) (b : Nat) (h : ¬ a = q) :
    statSize ((a, b) :: fs) q = statSize fs q := by
  simp [statSize, List.find?_cons, h]

theorem removeFile_cons_eq (fs : Files) (a : String) (b : Nat) :
    removeFile ((a, b) :: fs) a = removeFile fs a := by
  simp [removeFile]

theorem removeFile_cons_ne (fs : Files) (a p : String) (b : Nat) (h : ¬ a = p) :
    removeFile ((a, b) :: fs) p = (a, b) :: removeFile fs p := by
  simp [removeFile, h]

theorem statSize_removeFile_ne (files : Files) (p q : String) (h : q ≠ p) :
    statSize (removeFile files p) q = statSize files q := by
  induction files with
  | nil => rfl
  | cons f fs ih =>
    obtain ⟨a, b⟩ := f
    by_cases hf : a = p
    · subst hf
      have hq : ¬ a = q := fun h2 => h h2.symm
      rw [removeFile_cons_eq, statSize_cons_ne _ _ _ _ hq]
      exact ih
    · rw [removeFile_cons_ne _ _ _ _ hf]
      by_cases hq : a = q
      · subst hq
        rw [statSize_cons_eq, statSize_cons_eq]
      · rw [statSize_cons_ne _ _ _ _ hq, statSize_cons_ne _ _ _ _ hq]
        exact ih

theorem existsSync_writeFile_ne (files : Files) (p q : String) (n : Nat) (h : q ≠ p) :
    existsSync (writeFile files p n) q = existsSync (removeFile files p) q := by
  have : ¬ p = q := fun h2 => h h2.symm
  simp [existsSync, writeFile, this]

theorem statSize_writeFile_ne (files : Files) (p q : String) (n : Nat) (h : q ≠ p) :
    statSize (writeFile files p n) q = statSize files q := by
  have hpq : ¬ p = q := fun h2 => h h2.symm
  have : statSize (writeFile files p n) q = statSize (removeFile files p) q := by
    simp [statSize, writeFile, List.find?_cons, hpq]
  rw [this, statSize_removeFile_ne files p q h]

theorem existsSync_removeFile_ne (files : Files) (p q : String) (h : existsSync files q = false) :
    existsSync (removeFile files p) q = false := by
  unfold existsSync removeFile at *
  rw [List.any_eq_false] at h ⊢
  intro f hf
  exact h f (List.mem_of_mem_filter hf)

theorem finish_files (j : Job) (s : State) (size : Nat)
    (h : statSize s.files j.finalPath = some size) : (finish j s).files = s.files := by
  unfold finish
  simp only []
  have : statSize (s.setProgress completedRecord).files j.finalPath = some size := h
  rw [this]
  rfl

/-- C9 (amended): for every download request with a url present and a start or
end time given (non-empty), if the trim tool is not installed when the request
arrives, and the fetch tool exits with code 0 as the first event to settle the
fetch stage (only output of the tool and changes of the disk coming before
it), the fetch artifact of `n` bytes being at the intermediate path at that
moment, then no trim process is launched; the artifact is renamed: afterwards
the final path holds the `n` bytes, the intermediate path (when it differs from
the final one) holds no file, and every other path is as before; the progress
record ends as `{percent: 100, status: 'completed', stage: 'complete'}`; and
the answer is the 200 success for `n` bytes, whose `clipped` is `false`. -/
theorem C9_missing_trim_tool_degrades (ctx : Ctx) (req : DownloadRequest) (files : Files)
    (pre : List Event) (n : Nat)
    (hurl : (JSVal.ofOption req.url).truthy = true)
    (hreq : (JSVal.ofOption req.startTime).truthy = true ∨
      (JSVal.ofOption req.endTime).truthy = true)
    (htool : existsSync files ffmpegPath = false)
    (hpre : ∀ e ∈ pre, e.isFetchOutputOrDisk = true)
    (htemp : statSize (run (mkJob ctx req files) (start (mkJob ctx req files) files) pre).files
      (mkJob ctx req files).tempFile = some n) :
    (run (mkJob ctx req files) (start (mkJob ctx req files) files)
      (pre ++ [.fetchClose (some 0)])).spawned = ["yt-dlp"] ∧
    Action.rename (mkJob ctx req files).tempFile (mkJob ctx req files).finalPath ∈
      (run (mkJob ctx req files) (start (mkJob ctx req files) files)
        (pre ++ [.fetchClose (some 0)])).log ∧
    statSize (run (mkJob ctx req files) (start (mkJob ctx req files) files)
      (pre ++ [.fetchClose (some 0)])).files (mkJob ctx req files).finalPath = some n ∧
    ((mkJob ctx req files).tempFile ≠ (mkJob ctx req files).finalPath →
      existsSync (run (mkJob ctx req files) (start (mkJob ctx req files) files)
        (pre ++ [.fetchClose (some 0)])).files (mkJob ctx req files).tempFile = false) ∧
    (∀ p : String, p ≠ (mkJob ctx req files).tempFile → p ≠ (mkJob ctx req files).finalPath →
      statSize (run (mkJob ctx req files) (start (mkJob ctx req files) files)
        (pre ++ [.fetchClose (some 0)])).files p
        = statSize (run (mkJob ctx req files) (start (mkJob ctx req files) files) pre).files p) ∧
    (run (mkJob ctx req files) (start (mkJob ctx req files) files)
      (pre ++ [.fetchClose (some 0)])).store
      = some { percent := .fin 100, status := "completed", stage := some "complete",
               message := [.lit "Download ready!"] } ∧
    (run (mkJob ctx req files) (start (mkJob ctx req files) files)
      (pre ++ [.fetchClose (some 0)])).responses
      = [(200, successBody (mkJob ctx req files) n)] ∧
    (successBody (mkJob ctx req files) n).clipped = some (.bool false) := by
  have hut := mkJob_useTimestamps_missing ctx req files hreq htool
  set j := mkJob ctx req files with hj
  have hu : j.useTimestamps.truthy = false := by rw [hut]; rfl
  obtain ⟨-, hf⟩ := fetching_run j pre (fetching_start j files hurl) hpre
  have hr : renameSync ({ run j (start j files) pre with fetchClosed := true } : State).files
      j.tempFile j.finalPath
      = some (writeFile (removeFile (run j (start j files) pre).files j.tempFile) j.finalPath n) := by
    show renameSync (run j (start j files) pre).files j.tempFile j.finalPath = _
    unfold renameSync
    rw [htemp]
  have hstep : run j (start j files) (pre ++ [.fetchClose (some 0)])
      = finish j { ({ run j (start j files) pre with fetchClosed := true } : State).emit
          (.rename j.tempFile j.finalPath) with
          files := writeFile (removeFile (run j (start j files) pre).files j.tempFile)
            j.finalPath n } := by
    rw [run_append]
    show step j (run j (start j files) pre) (.fetchClose (some 0)) = _
    rw [step_fetchClose_ok j hf, afterFetch_rename j _ hu _ hr]
  obtain ⟨f1, f2, f3, f4, f5, f6⟩ := hf
  have hstat : statSize ({ ({ run j (start j files) pre with fetchClosed := true } : State).emit
        (.rename j.tempFile j.finalPath) with
        files := writeFile (removeFile (run j (start j files) pre).files j.tempFile)
          j.finalPath n } : State).files j.finalPath = some n := statSize_writeFile _ _ _
  have hfiles := finish_files j _ n hstat
  obtain ⟨h1, h2, -, -⟩ := finish_spec j
    { ({ run j (start j files) pre with fetchClosed := true } : State).emit
        (.rename j.tempFile j.finalPath) with
      files := writeFile (removeFile (run j (start j files) pre).files j.tempFile)
        j.finalPath n }
  rw [hstep]
  rcases h1 with ⟨-, hst, size, hsize, hresp⟩ | ⟨m, -, -, hnone, -⟩
  · have hsz : size = n := by
      rw [hstat] at hsize
      exact (Option.some.inj hsize).symm
    subst hsz
    refine ⟨?_, ?_, ?_, ?_, ?_, ?_, ?_, ?_⟩
    · rw [h2]
      simpa [State.emit, State.spawned, List.filterMap_append] using f6
    · exact finish_log_mem j _ _ (by simp [State.emit])
    · rw [hfiles]; exact hstat
    · intro hne
      rw [hfiles]
      show existsSync (writeFile (removeFile (run j (start j files) pre).files j.tempFile)
        j.finalPath size) j.tempFile = false
      rw [existsSync_writeFile_ne _ _ _ _ hne]
      exact existsSync_removeFile_ne _ _ _ (existsSync_removeFile _ _)
    · intro p hp1 hp2
      rw [hfiles]
      show statSize (writeFile (removeFile (run j (start j files) pre).files j.tempFile)
        j.finalPath size) p = _
      rw [statSize_writeFile_ne _ _ _ _ hp2, statSize_removeFile_ne _ _ _ hp1]
    · rw [hst, completedRecord_eq]
    · rw [hresp]
      have : ({ ({ run j (start j files) pre with fetchClosed := true } : State).emit
          (.rename j.tempFile j.finalPath) with
          files := writeFile (removeFile (run j (start j files) pre).files j.tempFile)
            j.finalPath size } : State).responses = [] := by
        simpa [State.emit, State.responses, List.filterMap_append] using f5
      rw [this]; rfl
    · show some j.useTimestamps = _
      rw [hut]
  · exfalso
    rw [hstat] at hnone
    cases hnone

/-- Witness of C9: the example request on a disk without the trim tool; the
fetch tool writes its artifact of 3145728 bytes and exits with code 0. -/
theorem C9_missing_trim_tool_degrades_witness :
    (run (mkJob exampleCtx exampleRequest []) (start (mkJob exampleCtx exampleRequest []) [])
      ([.fetchStdout "[download] 100% of 3.00MiB",
        .fileWritten "/app/downloads/temp_1700000000001.mp4" 3145728]
        ++ [.fetchClose (some 0)])).spawned = ["yt-dlp"] ∧
    statSize (run (mkJob exampleCtx exampleRequest []) (start (mkJob exampleCtx exampleRequest []) [])
      ([.fetchStdout "[download] 100% of 3.00MiB",
        .fileWritten "/app/downloads/temp_1700000000001.mp4" 3145728]
        ++ [.fetchClose (some 0)])).files (mkJob exampleCtx exampleRequest []).finalPath
      = some 3145728 ∧
    existsSync (run (mkJob exampleCtx exampleRequest [])
      (start (mkJob exampleCtx exampleRequest []) [])
      ([.fetchStdout "[download] 100% of 3.00MiB",
        .fileWritten "/app/downloads/temp_1700000000001.mp4" 3145728]
        ++ [.fetchClose (some 0)])).files (mkJob exampleCtx exampleRequest []).tempFile = false ∧
    (run (mkJob exampleCtx exampleRequest []) (start (mkJob exampleCtx exampleRequest []) [])
      ([.fetchStdout "[download] 100% of 3.00MiB",
        .fileWritten "/app/downloads/temp_1700000000001.mp4" 3145728]
        ++ [.fetchClose (some 0)])).store
      = some { percent := .fin 100, status := "completed", stage := some "complete",
               message := [.lit "Download ready!"] } :=
  ⟨(C9_missing_trim_tool_degrades exampleCtx exampleRequest []
      [.fetchStdout "[download] 100% of 3.00MiB",
        .fileWritten "/app/downloads/temp_1700000000001.mp4" 3145728] 3145728
      (by decide) (by decide) (by decide) (by decide) (by decide!)).1,
    (C9_missing_trim_tool_degrades exampleCtx exampleRequest []
      [.fetchStdout "[download] 100% of 3.00MiB",
        .fileWritten "/app/downloads/temp_1700000000001.mp4" 3145728] 3145728
      (by decide) (by decide) (by decide) (by decide) (by decide!)).2.2.1,
    (C9_missing_trim_tool_degrades exampleCtx exampleRequest []
      [.fetchStdout "[download] 100% of 3.00MiB",
        .fileWritten "/app/downloads/temp_1700000000001.mp4" 3145728] 3145728
      (by decide) (by decide) (by decide) (by decide) (by decide!)).2.2.2.1 (by decide),
    (C9_missing_trim_tool_degrades exampleCtx exampleRequest []
      [.fetchStdout "[download] 100% of 3.00MiB",
        .fileWritten "/app/downloads/temp_1700000000001.mp4" 3145728] 3145728
      (by decide) (by decide) (by decide) (by decide) (by decide!)).2.2.2.2.2.1⟩

/-- C9 as stated fails: the trim tool is missing, a start time is given, and
the fetch tool exits with code 0, but no file is at the intermediate path
(the fetch tool chose another extension, say).  The rename throws, the handler
answers 500 and the progress record ends as an error record. -/
theorem C9_counterexample :
    exampleRequest.url = some "https://youtu.be/x" ∧ exampleRequest.startTime = some "abc" ∧
    existsSync [] ffmpegPath = false ∧
    admissible (mkJob exampleCtx exampleRequest []) (start (mkJob exampleCtx exampleRequest []) [])
      [.fetchStdout "[download] 100% of 3.00MiB",
        .fileWritten "/app/downloads/temp_1700000000001.webm" 3145728,
        .fetchClose (some 0)] = true ∧
    (run (mkJob exampleCtx exampleRequest []) (start (mkJob exampleCtx exampleRequest []) [])
      [.fetchStdout "[download] 100% of 3.00MiB",
        .fileWritten "/app/downloads/temp_1700000000001.webm" 3145728,
        .fetchClose (some 0)]).responses
      = [(500, .error [.lit "Download failed: ",
          .lit ("ENOENT: no such file or directory, rename " ++
            "'/app/downloads/temp_1700000000001.mp4' -> " ++
            "'/app/downloads/video_1700000000001.mp4'")]
          (some "1700000000000"))] ∧
    (run (mkJob exampleCtx exampleRequest []) (start (mkJob exampleCtx exampleRequest []) [])
      [.fetchStdout "[download] 100% of 3.00MiB",
        .fileWritten "/app/downloads/temp_1700000000001.webm" 3145728,
        .fetchClose (some 0)]).store.map (fun r => r.status) = some "error" := by
  decide!

/-! ### The artifact gateway -/

theorem splitOnChar_ne_nil (sep : Char) (a : List Char) : splitOnChar sep a ≠ [] := by
  cases a with
  | nil => simp [splitOnChar]
  | cons c cs =>
    unfold splitOnChar
    split_ifs
    · simp
    · split <;> simp

theorem splitOnChar_append_sep (sep : Char) (a b : List Char) :
    splitOnChar sep (a ++ sep :: b) = splitOnChar sep a ++ splitOnChar sep b := by
  induction a with
  | nil => simp [splitOnChar]
  | cons c cs ih =>
    by_cases hc : c = sep
    · simp [splitOnChar, hc, ih]
    · obtain ⟨p, ps, hp⟩ := List.exists_cons_of_ne_nil (splitOnChar_ne_nil sep cs)
      simp [splitOnChar, hc, ih, hp]

theorem foldl_normalizeStep_plain (b : Bool) (segs acc : List (List Char))
    (h : ∀ seg ∈ segs, seg ≠ ['.', '.']) :
    segs.foldl (normalizeStep b) acc
      = (segs.filter (fun seg => decide (seg ≠ [] ∧ seg ≠ ['.']))).reverse ++ acc := by
  induction segs generalizing acc with
  | nil => rfl
  | cons seg rest ih =>
    have hseg := h seg (List.mem_cons_self _ _)
    have hrest : ∀ x ∈ rest, x ≠ ['.', '.'] := fun x hx => h x (List.mem_cons_of_mem _ hx)
    rw [List.foldl_cons, ih _ hrest]
    by_cases hk : seg = [] ∨ seg = ['.']
    · have : normalizeStep b acc seg = acc := by simp [normalizeStep, hk]
      rw [this]
      have hd : decide (seg ≠ [] ∧ seg ≠ ['.']) = false := by
        rw [decide_eq_false_iff_not]; tauto
      rw [List.filter_cons_of_neg (by simp [hd])]
    · have : normalizeStep b acc seg = seg :: acc := by simp [normalizeStep, hk, hseg]
      rw [this]
      have h1 : seg ≠ [] := fun h => hk (Or.inl h)
      have h2 : seg ≠ ['.'] := fun h => hk (Or.inr h)
      simp [List.filter_cons, h1, h2]

theorem joinSegments_ne_nil (xs : List (List Char)) (seg : List Char) (ys : List (List Char))
    (h : seg ≠ []) : joinSegments (xs ++ seg :: ys) ≠ [] := by
  induction xs with
  | nil =>
    cases ys with
    | nil => simpa [joinSegments] using h
    | cons y ys => simp [joinSegments, h]
  | cons x xs ih =>
    obtain ⟨z, zs, hz⟩ : ∃ z zs, xs ++ seg :: ys = z :: zs := by
      cases xs <;> simp
    rw [List.cons_append, hz]
    simp [joinSegments]

theorem joinSegments_append (a b : List (List Char)) (ha : a ≠ []) (hb : b ≠ []) :
    joinSegments (a ++ b) = joinSegments a ++ '/' :: joinSegments b := by
  induction a with
  | nil => exact absurd rfl ha
  | cons x xs ih =>
    obtain ⟨y, ys, rfl⟩ := List.exists_cons_of_ne_nil hb
    cases xs with
    | nil => simp [joinSegments]
    | cons z zs =>
      have := ih (by simp)
      simp only [List.cons_append] at this ⊢
      simp only [joinSegments, this, List.append_assoc, List.cons_append]

theorem startsWith_append (p rest : List Char) : startsWith p (p ++ rest) = true := by
  induction p with
  | nil => cases rest <;> rfl
  | cons c cs ih => simp [startsWith, ih]

theorem string_ne_empty_of_head (s : String) (c : Char) (h : s.data.head? = some c) : s ≠ "" := by
  rintro rfl
  simp at h

theorem head_append_of_head (D rest : List Char) (c : Char) (h : D.head? = some c) :
    (D ++ rest).head? = some c := by
  cases D with
  | nil => simp at h
  | cons d ds => simpa using h

theorem foldl_base (D dl : List Char) (h1 : dl ≠ []) (h2 : dl ≠ ['.']) (h3 : dl ≠ ['.', '.'])
    (h4 : splitOnChar '/' dl = [dl]) :
    (splitOnChar '/' (D ++ '/' :: dl)).foldl (normalizeStep false) []
      = dl :: (splitOnChar '/' D).foldl (normalizeStep false) [] := by
  rw [splitOnChar_append_sep, List.foldl_append, h4, List.foldl_cons, List.foldl_nil]
  simp [normalizeStep, h1, h2, h3]

theorem normalizeChars_base (D dl : List Char) (hD : D.head? = some '/') (h1 : dl ≠ [])
    (h2 : dl ≠ ['.']) (h3 : dl ≠ ['.', '.']) (h4 : splitOnChar '/' dl = [dl])
    (h5 : dl.getLast? ≠ some '/') :
    normalizeChars (D ++ '/' :: dl)
      = '/' :: joinSegments (((splitOnChar '/' D).foldl (normalizeStep false) []).reverse
          ++ [dl]) := by
  have hne : D ++ '/' :: dl ≠ [] := by simp
  have hhead := head_append_of_head D ('/' :: dl) '/' hD
  have hlast : ¬ (D ++ '/' :: dl).getLast? = some '/' := by
    rw [List.getLast?_append]
    obtain ⟨c, cs, rfl⟩ := List.exists_cons_of_ne_nil h1
    simpa [List.getLast?_cons_cons] using h5
  have hbody := joinSegments_ne_nil
    ((splitOnChar '/' D).foldl (normalizeStep false) []).reverse dl [] h1
  have hsegs : normalizeSegments false (splitOnChar '/' (D ++ '/' :: dl))
      = ((splitOnChar '/' D).foldl (normalizeStep false) []).reverse ++ [dl] := by
    unfold normalizeSegments
    rw [foldl_base D dl h1 h2 h3 h4, List.reverse_cons]
  unfold normalizeChars
  rw [if_neg hne]
  simp only [hhead, decide_True, Bool.not_true, if_true, hsegs]
  rw [if_neg hbody, if_neg hlast]

theorem normalizeChars_full (D dl F : List Char) (hD : D.head? = some '/') (h1 : dl ≠ [])
    (h2 : dl ≠ ['.']) (h3 : dl ≠ ['.', '.']) (h4 : splitOnChar '/' dl = [dl])
    (hF : ∀ seg ∈ splitOnChar '/' F, seg ≠ ['.', '.']) :
    ∃ extra tail, normalizeChars ((D ++ '/' :: dl) ++ '/' :: F)
      = '/' :: joinSegments ((((splitOnChar '/' D).foldl (normalizeStep false) []).reverse
          ++ [dl]) ++ extra) ++ tail ∧ (tail = [] ∨ tail = ['/']) := by
  have hne : (D ++ '/' :: dl) ++ '/' :: F ≠ [] := by simp
  have hhead : ((D ++ '/' :: dl) ++ '/' :: F).head? = some '/' :=
    head_append_of_head _ _ '/' (head_append_of_head D _ '/' hD)
  have hsegs : normalizeSegments false (splitOnChar '/' ((D ++ '/' :: dl) ++ '/' :: F))
      = (((splitOnChar '/' D).foldl (normalizeStep false) []).reverse ++ [dl])
        ++ (splitOnChar '/' F).filter (fun seg => decide (seg ≠ [] ∧ seg ≠ ['.'])) := by
    unfold normalizeSegments
    rw [splitOnChar_append_sep, List.foldl_append, foldl_base D dl h1 h2 h3 h4,
      foldl_normalizeStep_plain false _ _ hF]
    simp
  have hbody : joinSegments ((((splitOnChar '/' D).foldl (normalizeStep false) []).reverse
      ++ [dl])
        ++ (splitOnChar '/' F).filter (fun seg => decide (seg ≠ [] ∧ seg ≠ ['.']))) ≠ [] := by
    rw [List.append_assoc]
    exact joinSegments_ne_nil _ dl _ h1
  refine ⟨(splitOnChar '/' F).filter (fun seg => decide (seg ≠ [] ∧ seg ≠ ['.'])),
    if ((D ++ '/' :: dl) ++ '/' :: F).getLast? = some '/' then ['/'] else [], ?_, ?_⟩
  · unfold normalizeChars
    rw [if_neg hne]
    simp only [hhead, decide_True, Bool.not_true, if_true, hsegs]
    rw [if_neg hbody]
    split_ifs <;> simp
  · split_ifs
    · exact Or.inr rfl
    · exact Or.inl rfl

theorem pathJoin_two (a b : String) (ha : a ≠ "") (hb : b ≠ "") :
    pathJoin [a, b] = String.mk (normalizeChars (a.data ++ '/' :: b.data)) := by
  unfold pathJoin
  simp [List.filter_cons, ha, hb, joinSegments]

theorem pathJoin_three (a b c : String) (ha : a ≠ "") (hb : b ≠ "") (hc : c ≠ "") :
    pathJoin [a, b, c] = String.mk (normalizeChars ((a.data ++ '/' :: b.data) ++ '/' :: c.data)) := by
  unfold pathJoin
  simp [List.filter_cons, ha, hb, hc, joinSegments]

theorem pathJoin_three_empty (a b : String) :
    pathJoin [a, b, ""] = pathJoin [a, b] := by
  unfold pathJoin
  simp [List.filter_cons]

/-- C10 (amended): for every filename none of whose `/`-separated segments is
`..` (whether or not it contains a separator), the path that
`GET /downloads/:filename` serves is the downloads directory or lies below it. -/
theorem C10_gateway_inside_without_dotdot (dirname filename : String) (files : Files)
    (path : String) (contentType : Option String)
    (habs : dirname.data.head? = some '/')
    (hseg : ∀ seg ∈ splitOnChar '/' filename.data, seg ≠ ['.', '.'])
    (h : serveDownload dirname files filename = .download path contentType) :
    insideDir (pathJoin [dirname, "downloads"]) path = true := by
  have hpath : path = pathJoin [dirname, "downloads", filename] := by
    by_cases hex : existsSync files (pathJoin [dirname, "downloads", filename]) = true
    · simp only [serveDownload, hex, if_true, GatewayResponse.download.injEq] at h
      exact h.1.symm
    · simp [serveDownload, hex] at h
  have hd : dirname ≠ "" := string_ne_empty_of_head dirname '/' habs
  have hdl : ("downloads" : String) ≠ "" := by decide
  by_cases hf : filename = ""
  · rw [hpath, hf, pathJoin_three_empty]
    simp [insideDir]
  · obtain ⟨extra, tail, hn, htail⟩ := normalizeChars_full dirname.data "downloads".data
      filename.data habs (by decide) (by decide) (by decide) (by decide) hseg
    rw [hpath, pathJoin_two _ _ hd hdl, pathJoin_three _ _ _ hd hdl hf, hn,
      normalizeChars_base dirname.data "downloads".data habs (by decide) (by decide) (by decide)
        (by decide) (by decide)]
    unfold insideDir
    rw [Bool.or_eq_true]
    by_cases hex : extra = []
    · subst hex
      rcases htail with rfl | rfl
      · left; simp
      · right
        simpa using startsWith_append ('/' :: joinSegments (((splitOnChar '/' dirname.data).foldl
          (normalizeStep false) []).reverse ++ ["downloads".data]) ++ ['/']) []
    · right
      rw [joinSegments_append _ _ (by simp) hex]
      have : '/' :: (joinSegments (((splitOnChar '/' dirname.data).foldl (normalizeStep false)
          []).reverse ++ ["downloads".data]) ++ '/' :: joinSegments extra) ++ tail
          = ('/' :: joinSegments (((splitOnChar '/' dirname.data).foldl (normalizeStep false)
          []).reverse ++ ["downloads".data]) ++ ['/']) ++ (joinSegments extra ++ tail) := by
        simp
      show startsWith _ ('/' :: (joinSegments (((splitOnChar '/' dirname.data).foldl
        (normalizeStep false) []).reverse ++ ["downloads".data]) ++ '/' :: joinSegments extra)
          ++ tail) = true
      rw [this]
      exact startsWith_append _ _

/-- Witness of C10: a clip name in `/app`. -/
theorem C10_gateway_inside_without_dotdot_witness :
    serveDownload "/app" [("/app/downloads/clip_1.mp4", 3145728)] "clip_1.mp4"
        = .download "/app/downloads/clip_1.mp4" (some "video/mp4") ∧
      insideDir (pathJoin ["/app", "downloads"]) "/app/downloads/clip_1.mp4" = true :=
  ⟨by decide, C10_gateway_inside_without_dotdot "/app" "clip_1.mp4"
    [("/app/downloads/clip_1.mp4", 3145728)] "/app/downloads/clip_1.mp4" (some "video/mp4")
    (by decide) (by decide) (by decide)⟩

/-- C10 as stated fails: the filename `../server.js` contains a separator, the
joined path is `/app/server.js`, outside `/app/downloads`, and the handler
sends that file. -/
theorem C10_counterexample :
    '/' ∈ "../server.js".data ∧
    serveDownload "/app" [("/app/server.js", 12000)] "../server.js"
      = .download "/app/server.js" none ∧
    insideDir (pathJoin ["/app", "downloads"]) "/app/server.js" = false := by
  decide

end YtSnipper
